import Mathlib

/-!
Verification of the interactive 3D viewer (three-setup.ts, view-3d.tsx and the
thumbnail/model helpers) against its specification.

Modelling conventions, used throughout:
* JavaScript strings are modelled as lists of Unicode code points (`JStr`).
  `toLowerCase` and `trim` are modelled on their ASCII core (the part-name data
  this application handles is ASCII); both match the JS behaviour there.
* THREE.js objects are external collaborators: materials, geometries and scene
  nodes are modelled as immutable records carrying an identity (standing for
  the JS object reference) plus their visible parameters.  Mutation of the live
  scene is modelled by explicit state passing; `clone()` allocates a fresh
  identity from a counter and copies the parameters.
* Numeric code is modelled twice, at the fidelity each property needs: exact
  rationals or reals for value-level properties, and reals extended with a
  non-finite marker for the NaN-safety property of camera fitting.
-/

namespace ThreeSetup

/-- A JavaScript string, as its list of code points. -/
abbrev JStr := List Nat

/-- Code points of a Lean string literal, for writing concrete JS strings. -/
def lit (s : String) : JStr := s.toList.map Char.toNat

/-- Model of JS `toLowerCase` on one code point (ASCII range, which is where the
viewer's part names live): the letters A..Z move to a..z, all else unchanged. -/
def lowerCP (n : Nat) : Nat := if 65 ≤ n ∧ n ≤ 90 then n + 32 else n

/-- Whitespace test used by JS `trim`, on its ASCII core
(space, tab, LF, VT, FF, CR). -/
def isWsCP (n : Nat) : Bool := n == 32 || n == 9 || n == 10 || n == 11 || n == 12 || n == 13

/-- Model of the JS expression `name.split("-")[0]`: the code points before the
first dash (code point 45); the whole string when there is no dash. -/
def splitHead (s : JStr) : JStr := s.takeWhile (fun n => n != 45)

/-- Model of JS `String.prototype.toLowerCase` (ASCII core). -/
def jsToLower (s : JStr) : JStr := s.map lowerCP

/-- Model of JS `String.prototype.trim` (ASCII core): drop whitespace from both
ends. -/
def jsTrim (s : JStr) : JStr := (((s.dropWhile isWsCP).reverse).dropWhile isWsCP).reverse

/-- PartIdentity derivation of `extractPartByName` (three-setup, `cleanNodeName`,
lines 230-231): `name.split("-")[0].toLowerCase().trim()`. -/
def cleanExtract (name : JStr) : JStr := jsTrim (jsToLower (splitHead name))

/-- PartIdentity derivation of `getTopLevelNodes` (three-setup, line 274):
`name.split("-")[0].trim().toLowerCase()`. -/
def cleanTopLevel (name : JStr) : JStr := jsToLower (jsTrim (splitHead name))

/-- Name key computed by `findNodeByBaseName` (view-3d, line 81):
`child.name.split("-")[0].toLowerCase()` - lower-cased but NOT trimmed. -/
def baseNameView (name : JStr) : JStr := jsToLower (splitHead name)

/-- Part name computed by `handleClick` (view-3d, line 362):
`sel.name.split("-")[0].trim()` - trimmed but NOT lower-cased. -/
def clickPartName (name : JStr) : JStr := jsTrim (splitHead name)

theorem lowerCP_isWs (n : Nat) : isWsCP (lowerCP n) = isWsCP n := by
  unfold lowerCP
  split
  · next h =>
    have h1 : isWsCP (n + 32) = false := by simp only [isWsCP, Bool.or_eq_false_iff, beq_eq_false_iff_ne, ne_eq]; omega
    have h2 : isWsCP n = false := by simp only [isWsCP, Bool.or_eq_false_iff, beq_eq_false_iff_ne, ne_eq]; omega
    rw [h1, h2]
  · rfl

theorem lowerCP_ne_dash (n : Nat) : (lowerCP n != 45) = (n != 45) := by
  unfold lowerCP
  split
  · next h =>
    have h1 : (n + 32 != 45) = true := by simp only [bne_iff_ne, ne_eq]; omega
    have h2 : (n != 45) = true := by simp only [bne_iff_ne, ne_eq]; omega
    rw [h1, h2]
  · rfl

theorem takeWhile_map_comm (f : Nat → Nat) (p : Nat → Bool) (h : ∀ x, p (f x) = p x)
    (l : List Nat) : (l.map f).takeWhile p = (l.takeWhile p).map f := by
  induction l with
  | nil => rfl
  | cons a t ih =>
    simp only [List.map_cons, List.takeWhile_cons, h a]
    cases p a <;> simp [ih]

theorem dropWhile_map_comm (f : Nat → Nat) (p : Nat → Bool) (h : ∀ x, p (f x) = p x)
    (l : List Nat) : (l.map f).dropWhile p = (l.dropWhile p).map f := by
  induction l with
  | nil => rfl
  | cons a t ih =>
    simp only [List.map_cons, List.dropWhile_cons, h a]
    cases p a <;> simp [ih]

theorem splitHead_jsToLower (s : JStr) : splitHead (jsToLower s) = jsToLower (splitHead s) :=
  takeWhile_map_comm lowerCP (fun n => n != 45) lowerCP_ne_dash s

theorem jsTrim_jsToLower (s : JStr) : jsTrim (jsToLower s) = jsToLower (jsTrim s) := by
  unfold jsTrim jsToLower
  rw [dropWhile_map_comm lowerCP isWsCP lowerCP_isWs, ← List.map_reverse,
    dropWhile_map_comm lowerCP isWsCP lowerCP_isWs, ← List.map_reverse]

theorem lowerCP_idem (n : Nat) : lowerCP (lowerCP n) = lowerCP n := by
  unfold lowerCP
  split
  · next h => rw [if_neg (by omega)]
  · rfl

theorem jsToLower_idem (s : JStr) : jsToLower (jsToLower s) = jsToLower s := by
  unfold jsToLower
  rw [List.map_map]
  exact List.map_congr_left (fun n _ => lowerCP_idem n)

/-- The two derivations inside three-setup agree: trimming after lower-casing
equals lower-casing after trimming. -/
theorem cleanExtract_eq_cleanTopLevel (name : JStr) :
    cleanExtract name = cleanTopLevel name := by
  unfold cleanExtract cleanTopLevel
  rw [jsTrim_jsToLower]

/-- PartIdentity derivation in three-setup is case-insensitive. -/
theorem cleanExtract_case_insensitive (name : JStr) :
    cleanExtract (jsToLower name) = cleanExtract name := by
  unfold cleanExtract
  rw [splitHead_jsToLower, jsTrim_jsToLower, jsTrim_jsToLower, jsToLower_idem]

/-!
## Materials and the snapshot store

A THREE.Material is modelled as an identity (`mid`, standing for the JS object
reference) plus one abstract visual parameter block (`val`, standing for color,
emissive, roughness, ... together).  `mesh.material` is a single material or an
array of materials, as in THREE.  `Material.clone()` copies the parameters into
a freshly allocated object; freshness is modelled by drawing identities from an
ever-increasing counter.
-/

/-- A material object: reference identity plus visual parameters. -/
structure Mat where
  mid : Nat
  val : Nat
deriving DecidableEq

/-- The `mesh.material` field: a single material or an array (THREE allows both,
and the source code branches on `Array.isArray`). -/
inductive Mats where
  | one : Mat → Mats
  | many : List Mat → Mats
deriving DecidableEq

/-- Visual parameters of a material slot, forgetting object identities. -/
def Mats.vals : Mats → List Nat
  | .one m => [m.val]
  | .many l => l.map Mat.val

/-- Object identities of a material slot. -/
def Mats.mids : Mats → List Nat
  | .one m => [m.mid]
  | .many l => l.map Mat.mid

/-- Clone a list of materials (`materials.map(m => m.clone())`), drawing fresh
identities from the counter. -/
def cloneMatList : List Mat → Nat → List Mat × Nat
  | [], c => ([], c)
  | m :: ms, c =>
    let rest := cloneMatList ms (c + 1)
    (⟨c, m.val⟩ :: rest.1, rest.2)

/-- Clone a material slot: `Array.isArray(mat) ? mat.map(m => m.clone()) : mat.clone()`. -/
def cloneMats : Mats → Nat → Mats × Nat
  | .one m, c => (.one ⟨c, m.val⟩, c + 1)
  | .many l, c =>
    let r := cloneMatList l c
    (.many r.1, r.2)

/-- A renderable object seen by `traverse`: its identity, its `isMesh` flag and
its live `material` slot (`none` models a falsy `mesh.material`). -/
structure MeshRec where
  id : Nat
  isMesh : Bool
  mat : Option Mats
deriving DecidableEq

/-- The `originalMaterials` map.  JS `Map` keeps insertion order and holds one
value per key; `set` replaces in place or appends. -/
abbrev Store := List (Nat × Mats)

/-- JS `Map.set`: overwrite the entry for the key in place, else append. -/
def Store.set : Store → Nat → Mats → Store
  | [], k, v => [(k, v)]
  | e :: es, k, v => if e.1 = k then (k, v) :: es else e :: Store.set es k v

/-- JS `Map.get`. -/
def Store.get : Store → Nat → Option Mats
  | [], _ => none
  | e :: es, k => if e.1 = k then some e.2 else Store.get es k

/-- Keys of the store, in insertion order. -/
def Store.keys (st : Store) : List Nat := st.map Prod.fst

/-- `collectOriginalMaterials(model, originalMaterials)` (three-setup, lines
190-204): traverse the model; for every mesh with a truthy material,
clone the current material slot and `set` it into the map - with no check
whether the mesh is already recorded.  The traversal is modelled by the list of
renderable records in traversal order. -/
def collectOriginalMaterials : List MeshRec → Store → Nat → Store × Nat
  | [], st, c => (st, c)
  | r :: rs, st, c =>
    if r.isMesh then
      match r.mat with
      | some mv =>
        let cl := cloneMats mv c
        collectOriginalMaterials rs (Store.set st r.id cl.1) cl.2
      | none => collectOriginalMaterials rs st c
    else collectOriginalMaterials rs st c

/-- Find the record a mesh reference resolves to. -/
def findRec (ms : List MeshRec) (k : Nat) : Option MeshRec := ms.find? (fun r => r.id == k)

/-- Assignment `mesh.material = mv` to the mesh with identity `k`. -/
def setMat (k : Nat) (mv : Mats) (r : MeshRec) : MeshRec :=
  if r.id == k then { r with mat := some mv } else r

/-- `resetModelColor(originalMaterials)` (three-setup, lines 209-218): iterate
the map in insertion order; for each recorded mesh that exists and is a mesh,
assign a fresh clone of the stored slot to the live material. -/
def resetModelColor : Store → List MeshRec → Nat → List MeshRec × Nat
  | [], ms, c => (ms, c)
  | (k, v) :: es, ms, c =>
    match findRec ms k with
    | some r =>
      if r.isMesh then
        let cl := cloneMats v c
        resetModelColor es (ms.map (setMat k cl.1)) cl.2
      else resetModelColor es ms c
    | none => resetModelColor es ms c

/-- The abstract parameter block of the orange highlight material built in
`highlightPart` (three-setup, lines 299-307). -/
def highlightVal : Nat := 1000

/-- The `apply` loop of `highlightPart`: each target mesh receives
`baseMat.clone()`, a fresh single material with the highlight parameters. -/
def highlightApply : List Nat → List MeshRec → Nat → List MeshRec × Nat
  | [], ms, c => (ms, c)
  | t :: ts, ms, c =>
    highlightApply ts (ms.map (setMat t (.one ⟨c, highlightVal⟩))) (c + 1)

/-- `highlightPart(meshOrMeshes)` (three-setup, lines 298-316): allocate the
base highlight material (identity `c`), then assign a clone of it to every
target mesh. -/
def highlightPart (ts : List Nat) (ms : List MeshRec) (c : Nat) : List MeshRec × Nat :=
  highlightApply ts ms (c + 1)

/-- One highlight operation as the component performs it (view-3d, handleClick
lines 370-383, the selectedPartName effect lines 288-303 and
highlightPartByName lines 424-435 all share this order): reset to the stored
originals, then - when the selected subtree contains meshes - re-collect the
whole model's materials into the store and apply the highlight to the subtree's
meshes.  An empty target list models the deselection path (reset only). -/
def clickHighlightOp (ms : List MeshRec) (st : Store) (c : Nat) (targets : List Nat) :
    List MeshRec × Store × Nat :=
  let r1 := resetModelColor st ms c
  if targets.isEmpty then (r1.1, st, r1.2)
  else
    let r2 := collectOriginalMaterials r1.1 st r1.2
    let r3 := highlightPart targets r1.1 r2.2
    (r3.1, r2.1, r3.2)

/-!
### Observations on the live material state and the store
-/

/-- Identities of the records, in traversal order. -/
def idsOf (ms : List MeshRec) : List Nat := ms.map MeshRec.id

/-- Visual parameters of the live material of mesh `k` (`none` when the mesh is
absent or has no material). -/
def liveVals (ms : List MeshRec) (k : Nat) : Option (List Nat) :=
  (findRec ms k).bind fun r => r.mat.map Mats.vals

/-- Material identities of the live material of mesh `k`. -/
def liveMids (ms : List MeshRec) (k : Nat) : List Nat :=
  (((findRec ms k).bind fun r => r.mat.map Mats.mids).getD [])

/-- Whether mesh `k` exists and carries `isMesh`. -/
def meshAt (ms : List MeshRec) (k : Nat) : Bool :=
  match findRec ms k with
  | some r => r.isMesh
  | none => false

/-- Visual parameters recorded in the store for mesh `k`. -/
def storeVals (st : Store) (k : Nat) : Option (List Nat) := (Store.get st k).map Mats.vals

/-- Material identities recorded in the store for mesh `k`. -/
def storeMids (st : Store) (k : Nat) : List Nat := ((Store.get st k).map Mats.mids).getD []

/-- Whether `collectOriginalMaterials` records mesh `k`: present, a mesh, and
with a truthy material. -/
def collectible (ms : List MeshRec) (k : Nat) : Bool :=
  match findRec ms k with
  | some r => r.isMesh && r.mat.isSome
  | none => false

/-- Whether `resetModelColor` touches mesh `k`: recorded, present, and a mesh. -/
def resettable (st : Store) (ms : List MeshRec) (k : Nat) : Bool :=
  (Store.get st k).isSome && meshAt ms k

/-- All material identities in the list are below the counter. -/
def midsBelow (l : List Nat) (c : Nat) : Prop := ∀ x ∈ l, x < c

/-- All material identities recorded in the store are below the counter. -/
def StoreBelow (st : Store) (c : Nat) : Prop := ∀ e ∈ st, midsBelow (Mats.mids e.2) c

/-!
### Clone lemmas
-/

theorem cloneMatList_vals (l : List Mat) (c : Nat) :
    (cloneMatList l c).1.map Mat.val = l.map Mat.val := by
  induction l generalizing c with
  | nil => rfl
  | cons m ms ih => simp [cloneMatList, ih]

theorem cloneMatList_le (l : List Mat) (c : Nat) : c ≤ (cloneMatList l c).2 := by
  induction l generalizing c with
  | nil => exact Nat.le_refl c
  | cons m ms ih => exact Nat.le_trans (Nat.le_succ c) (ih (c + 1))

theorem cloneMatList_mids (l : List Mat) (c : Nat) :
    ∀ x ∈ (cloneMatList l c).1.map Mat.mid, c ≤ x ∧ x < (cloneMatList l c).2 := by
  induction l generalizing c with
  | nil => intro x hx; simp [cloneMatList] at hx
  | cons m ms ih =>
    intro x hx
    simp only [cloneMatList, List.map_cons, List.mem_cons] at hx
    rcases hx with h | h
    · rw [h]
      exact ⟨Nat.le_refl c, Nat.lt_of_lt_of_le (Nat.lt_succ_self c) (cloneMatList_le ms (c + 1))⟩
    · rcases ih (c + 1) x h with ⟨h1, h2⟩
      exact ⟨Nat.le_trans (Nat.le_succ c) h1, h2⟩

theorem cloneMats_vals (v : Mats) (c : Nat) : (cloneMats v c).1.vals = v.vals := by
  cases v with
  | one m => rfl
  | many l => simp [cloneMats, Mats.vals, cloneMatList_vals]

theorem cloneMats_le (v : Mats) (c : Nat) : c ≤ (cloneMats v c).2 := by
  cases v with
  | one m => exact Nat.le_succ c
  | many l => exact cloneMatList_le l c

theorem cloneMats_mids (v : Mats) (c : Nat) :
    ∀ x ∈ (cloneMats v c).1.mids, c ≤ x ∧ x < (cloneMats v c).2 := by
  cases v with
  | one m => intro x hx; simp [cloneMats, Mats.mids] at hx; rw [hx]; exact ⟨Nat.le_refl c, Nat.lt_succ_self c⟩
  | many l => intro x hx; exact cloneMatList_mids l c x hx

/-!
### Store lemmas
-/

theorem Store.get_set (st : Store) (k : Nat) (v : Mats) (j : Nat) :
    Store.get (Store.set st k v) j = if j = k then some v else Store.get st j := by
  induction st with
  | nil =>
    by_cases h : j = k
    · simp [Store.set, Store.get, h]
    · simp [Store.set, Store.get, h, Ne.symm h]
  | cons e es ih =>
    by_cases hek : e.1 = k
    · by_cases hjk : j = k
      · simp [Store.set, Store.get, hek, hjk]
      · have h2 : ¬ e.1 = j := by rw [hek]; exact Ne.symm hjk
        simp [Store.set, Store.get, hek, hjk, h2, Ne.symm hjk]
    · simp only [Store.set, if_neg hek, Store.get]
      by_cases hej : e.1 = j
      · have hjk : ¬ j = k := fun hh => hek (hej.trans hh)
        rw [if_pos hej, if_pos hej, if_neg hjk]
      · rw [if_neg hej, if_neg hej, ih]

theorem Store.mem_set (st : Store) (k : Nat) (v : Mats) :
    ∀ e ∈ Store.set st k v, e ∈ st ∨ e = (k, v) := by
  induction st with
  | nil => intro e he; simp [Store.set] at he; exact Or.inr he
  | cons e0 es ih =>
    intro e he
    by_cases hek : e0.1 = k
    · simp only [Store.set, if_pos hek, List.mem_cons] at he
      rcases he with he | he
      · exact Or.inr he
      · exact Or.inl (List.mem_cons_of_mem e0 he)
    · simp only [Store.set, if_neg hek, List.mem_cons] at he
      rcases he with he | he
      · exact Or.inl (he ▸ List.mem_cons_self e0 es)
      · rcases ih e he with h | h
        · exact Or.inl (List.mem_cons_of_mem e0 h)
        · exact Or.inr h

theorem Store.mem_keys_set (st : Store) (k : Nat) (v : Mats) (j : Nat)
    (h : j ∈ Store.keys (Store.set st k v)) : j ∈ Store.keys st ∨ j = k := by
  unfold Store.keys at h
  rcases List.mem_map.mp h with ⟨e, he, hj⟩
  rcases Store.mem_set st k v e he with hm | hm
  · exact Or.inl (List.mem_map.mpr ⟨e, hm, hj⟩)
  · right; rw [← hj, hm]

theorem Store.keys_set_nodup (st : Store) (k : Nat) (v : Mats)
    (h : (Store.keys st).Nodup) : (Store.keys (Store.set st k v)).Nodup := by
  induction st with
  | nil => simp [Store.set, Store.keys]
  | cons e es ih =>
    by_cases hek : e.1 = k
    · simpa [Store.set, Store.keys, hek] using h
    · simp only [Store.keys, List.map_cons, List.nodup_cons] at h
      rcases h with ⟨hmem, hnd⟩
      simp only [Store.set, if_neg hek, Store.keys, List.map_cons, List.nodup_cons]
      refine ⟨?_, ih hnd⟩
      intro hmm
      rcases Store.mem_keys_set es k v e.1 hmm with hh | hh
      · exact hmem hh
      · exact hek hh

theorem Store.get_eq_none (st : Store) (j : Nat) (h : j ∉ Store.keys st) :
    Store.get st j = none := by
  induction st with
  | nil => rfl
  | cons e es ih =>
    simp only [Store.keys, List.map_cons, List.mem_cons] at h
    push_neg at h
    simp only [Store.get, if_neg (fun hh : e.1 = j => h.1 hh.symm)]
    exact ih (by simpa [Store.keys] using h.2)

theorem Store.get_isSome_mem_keys (st : Store) (j : Nat)
    (h : (Store.get st j).isSome) : j ∈ Store.keys st := by
  by_contra hc
  rw [Store.get_eq_none st j hc] at h
  simp at h

theorem Store.get_mem (st : Store) (j : Nat) (v : Mats) (h : Store.get st j = some v) :
    (j, v) ∈ st := by
  induction st with
  | nil => simp [Store.get] at h
  | cons e es ih =>
    by_cases hej : e.1 = j
    · simp only [Store.get, if_pos hej] at h
      have he : e = (j, v) := by
        cases e with
        | mk a b =>
          simp only at hej h
          injection h with h2
          rw [hej, h2]
      rw [he]
      exact List.mem_cons_self (j, v) es
    · simp only [Store.get, if_neg hej] at h
      exact List.mem_cons_of_mem e (ih h)

/-!
### findRec and setMat lemmas
-/

theorem findRec_cons (r : MeshRec) (rs : List MeshRec) (k : Nat) :
    findRec (r :: rs) k = if r.id = k then some r else findRec rs k := by
  by_cases h : r.id = k
  · simp [findRec, List.find?_cons_of_pos, h]
  · simp [findRec, List.find?_cons_of_neg, h]

theorem findRec_some {ms : List MeshRec} {k : Nat} {r : MeshRec}
    (h : findRec ms k = some r) : r.id = k ∧ r ∈ ms := by
  constructor
  · have := List.find?_some h
    simpa using this
  · exact List.mem_of_find?_eq_some h

theorem findRec_eq_none {ms : List MeshRec} {k : Nat} (h : k ∉ idsOf ms) :
    findRec ms k = none := by
  apply List.find?_eq_none.mpr
  intro r hr
  simp only [beq_iff_eq]
  intro hid
  exact h (List.mem_map.mpr ⟨r, hr, hid⟩)

theorem setMat_id (k : Nat) (mv : Mats) (r : MeshRec) : (setMat k mv r).id = r.id := by
  unfold setMat; split <;> rfl

theorem setMat_isMesh (k : Nat) (mv : Mats) (r : MeshRec) :
    (setMat k mv r).isMesh = r.isMesh := by
  unfold setMat; split <;> rfl

theorem idsOf_map_setMat (ms : List MeshRec) (k : Nat) (mv : Mats) :
    idsOf (ms.map (setMat k mv)) = idsOf ms := by
  unfold idsOf
  rw [List.map_map]
  exact List.map_congr_left (fun r _ => setMat_id k mv r)

theorem findRec_map_setMat (ms : List MeshRec) (k : Nat) (mv : Mats) (j : Nat) :
    findRec (ms.map (setMat k mv)) j = (findRec ms j).map (setMat k mv) := by
  induction ms with
  | nil => rfl
  | cons r rs ih =>
    rw [List.map_cons, findRec_cons, findRec_cons, setMat_id]
    by_cases h : r.id = j
    · rw [if_pos h, if_pos h, Option.map_some']
    · rw [if_neg h, if_neg h, ih]

theorem meshAt_map_setMat (ms : List MeshRec) (k : Nat) (mv : Mats) (j : Nat) :
    meshAt (ms.map (setMat k mv)) j = meshAt ms j := by
  unfold meshAt
  rw [findRec_map_setMat]
  cases findRec ms j with
  | none => rfl
  | some r => simp [setMat_isMesh]

theorem liveVals_map_setMat_self (ms : List MeshRec) (k : Nat) (mv : Mats)
    (h : (findRec ms k).isSome) :
    liveVals (ms.map (setMat k mv)) k = some mv.vals := by
  unfold liveVals
  rw [findRec_map_setMat]
  rcases Option.isSome_iff_exists.mp h with ⟨r, hr⟩
  have hid := (findRec_some hr).1
  have hset : setMat k mv r = { r with mat := some mv } := by
    unfold setMat
    rw [if_pos]
    simp only [beq_iff_eq]
    exact hid
  rw [hr, Option.map_some', hset]
  rfl

theorem findRec_map_setMat_other (ms : List MeshRec) (k : Nat) (mv : Mats) (j : Nat)
    (h : j ≠ k) : findRec (ms.map (setMat k mv)) j = findRec ms j := by
  rw [findRec_map_setMat]
  cases hf : findRec ms j with
  | none => rfl
  | some r =>
    have hid := (findRec_some hf).1
    have hnoop : setMat k mv r = r := by
      unfold setMat
      rw [if_neg]
      simp only [beq_iff_eq]
      rw [hid]; exact h
    rw [Option.map_some', hnoop]

theorem liveVals_map_setMat_other (ms : List MeshRec) (k : Nat) (mv : Mats) (j : Nat)
    (h : j ≠ k) : liveVals (ms.map (setMat k mv)) j = liveVals ms j := by
  unfold liveVals
  rw [findRec_map_setMat_other ms k mv j h]

theorem liveMids_map_setMat_self (ms : List MeshRec) (k : Nat) (mv : Mats)
    (h : (findRec ms k).isSome) :
    liveMids (ms.map (setMat k mv)) k = mv.mids := by
  unfold liveMids
  rw [findRec_map_setMat]
  rcases Option.isSome_iff_exists.mp h with ⟨r, hr⟩
  have hid := (findRec_some hr).1
  have hset : setMat k mv r = { r with mat := some mv } := by
    unfold setMat
    rw [if_pos]
    simp only [beq_iff_eq]
    exact hid
  rw [hr, Option.map_some', hset]
  rfl

theorem liveMids_map_setMat_other (ms : List MeshRec) (k : Nat) (mv : Mats) (j : Nat)
    (h : j ≠ k) : liveMids (ms.map (setMat k mv)) j = liveMids ms j := by
  unfold liveMids
  rw [findRec_map_setMat_other ms k mv j h]

theorem matSome_map_setMat (ms : List MeshRec) (k : Nat) (mv : Mats)
    (h : ∀ r ∈ ms, r.isMesh = true → r.mat.isSome) :
    ∀ r ∈ ms.map (setMat k mv), r.isMesh = true → r.mat.isSome := by
  intro r hr hm
  rcases List.mem_map.mp hr with ⟨r0, hr0, hset⟩
  rw [← hset] at hm ⊢
  unfold setMat at hm ⊢
  by_cases hk : (r0.id == k) = true
  · simp only [if_pos hk, Option.isSome_some]
  · rw [if_neg hk] at hm ⊢
    exact h r0 hr0 hm

/-!
### collectOriginalMaterials characterization
-/

theorem midsBelow_mono {l : List Nat} {c c2 : Nat} (h : midsBelow l c) (hc : c ≤ c2) :
    midsBelow l c2 := fun x hx => Nat.lt_of_lt_of_le (h x hx) hc

theorem StoreBelow_mono {st : Store} {c c2 : Nat} (h : StoreBelow st c) (hc : c ≤ c2) :
    StoreBelow st c2 := fun e he => midsBelow_mono (h e he) hc

theorem collect_ctr_le (ms : List MeshRec) (st : Store) (c : Nat) :
    c ≤ (collectOriginalMaterials ms st c).2 := by
  induction ms generalizing st c with
  | nil => exact Nat.le_refl c
  | cons r rs ih =>
    unfold collectOriginalMaterials
    by_cases hm : r.isMesh
    · rw [if_pos hm]
      cases hmat : r.mat with
      | some mv => exact Nat.le_trans (cloneMats_le mv c) (ih _ _)
      | none => exact ih st c
    · rw [if_neg hm]; exact ih st c

theorem collect_keys_nodup (ms : List MeshRec) (st : Store) (c : Nat)
    (h : (Store.keys st).Nodup) :
    (Store.keys (collectOriginalMaterials ms st c).1).Nodup := by
  induction ms generalizing st c with
  | nil => exact h
  | cons r rs ih =>
    unfold collectOriginalMaterials
    by_cases hm : r.isMesh
    · rw [if_pos hm]
      cases hmat : r.mat with
      | some mv => exact ih _ _ (Store.keys_set_nodup st r.id _ h)
      | none => exact ih st c h
    · rw [if_neg hm]; exact ih st c h

theorem collect_below (ms : List MeshRec) (st : Store) (c : Nat) (h : StoreBelow st c) :
    StoreBelow (collectOriginalMaterials ms st c).1 (collectOriginalMaterials ms st c).2 := by
  induction ms generalizing st c with
  | nil => exact h
  | cons r rs ih =>
    unfold collectOriginalMaterials
    by_cases hm : r.isMesh
    · rw [if_pos hm]
      cases hmat : r.mat with
      | some mv =>
        apply ih
        intro e he
        rcases Store.mem_set st r.id (cloneMats mv c).1 e he with hin | heq
        · exact midsBelow_mono (h e hin) (cloneMats_le mv c)
        · rw [heq]
          intro x hx
          exact ((cloneMats_mids mv c) x hx).2
      | none => exact ih st c h
    · rw [if_neg hm]; exact ih st c h

theorem collect_get (ms : List MeshRec) (st : Store) (c : Nat)
    (h : (idsOf ms).Nodup) (j : Nat) :
    storeVals (collectOriginalMaterials ms st c).1 j =
      if collectible ms j then liveVals ms j else storeVals st j := by
  induction ms generalizing st c with
  | nil =>
    simp [collectOriginalMaterials, collectible, findRec]
  | cons r rs ih =>
    have hids : (idsOf (r :: rs)) = r.id :: idsOf rs := rfl
    rw [hids, List.nodup_cons] at h
    rcases h with ⟨hnotin, hnd⟩
    have hcoll : collectible (r :: rs) j =
        if r.id = j then (r.isMesh && r.mat.isSome) else collectible rs j := by
      unfold collectible
      rw [findRec_cons]
      by_cases hj : r.id = j
      · rw [if_pos hj, if_pos hj]
      · rw [if_neg hj, if_neg hj]
    have hlive : liveVals (r :: rs) j =
        if r.id = j then r.mat.map Mats.vals else liveVals rs j := by
      unfold liveVals
      rw [findRec_cons]
      by_cases hj : r.id = j
      · rw [if_pos hj, if_pos hj]; rfl
      · rw [if_neg hj, if_neg hj]
    unfold collectOriginalMaterials
    by_cases hm : r.isMesh
    · rw [if_pos hm]
      cases hmat : r.mat with
      | some mv =>
        rw [ih _ _ hnd]
        by_cases hj : r.id = j
        · have hrsj : collectible rs j = false := by
            unfold collectible
            rw [findRec_eq_none (hj ▸ hnotin)]
          rw [hrsj, if_neg (by simp), hcoll, if_pos hj, hm, hmat]
          simp only [Option.isSome_some, Bool.and_true, if_pos rfl]
          unfold storeVals
          rw [Store.get_set, if_pos hj.symm, hlive, if_pos hj, hmat]
          simp [cloneMats_vals]
        · rw [hcoll, if_neg hj, hlive, if_neg hj]
          by_cases hc2 : collectible rs j = true
          · rw [hc2]; simp
          · rw [Bool.not_eq_true] at hc2
            rw [hc2]
            simp only [Bool.false_eq_true, if_false]
            unfold storeVals
            rw [Store.get_set, if_neg (fun hh : j = r.id => hj hh.symm)]
      | none =>
        rw [ih _ _ hnd]
        by_cases hj : r.id = j
        · have hrsj : collectible rs j = false := by
            unfold collectible
            rw [findRec_eq_none (hj ▸ hnotin)]
          rw [hrsj, if_neg (by simp), hcoll, if_pos hj, hmat]
          simp
        · rw [hcoll, if_neg hj, hlive, if_neg hj]
    · rw [if_neg hm]
      rw [ih _ _ hnd]
      by_cases hj : r.id = j
      · have hrsj : collectible rs j = false := by
          unfold collectible
          rw [findRec_eq_none (hj ▸ hnotin)]
        rw [hrsj, if_neg (by simp), hcoll, if_pos hj]
        simp [hm]
      · rw [hcoll, if_neg hj, hlive, if_neg hj]

/-!
### resetModelColor characterization
-/

theorem reset_cons_mesh {ms : List MeshRec} {k : Nat} {r : MeshRec} (v : Mats)
    (es : Store) (c : Nat) (hf : findRec ms k = some r) (hm : r.isMesh = true) :
    resetModelColor ((k, v) :: es) ms c =
      resetModelColor es (ms.map (setMat k (cloneMats v c).1)) (cloneMats v c).2 := by
  conv_lhs => unfold resetModelColor
  rw [hf]
  dsimp only
  rw [if_pos hm]

theorem reset_cons_nomesh {ms : List MeshRec} {k : Nat} {r : MeshRec} (v : Mats)
    (es : Store) (c : Nat) (hf : findRec ms k = some r) (hm : ¬ r.isMesh = true) :
    resetModelColor ((k, v) :: es) ms c = resetModelColor es ms c := by
  conv_lhs => unfold resetModelColor
  rw [hf]
  dsimp only
  rw [if_neg hm]

theorem reset_cons_none {ms : List MeshRec} {k : Nat} (v : Mats)
    (es : Store) (c : Nat) (hf : findRec ms k = none) :
    resetModelColor ((k, v) :: es) ms c = resetModelColor es ms c := by
  conv_lhs => unfold resetModelColor
  rw [hf]

theorem reset_ctr_le (st : Store) (ms : List MeshRec) (c : Nat) :
    c ≤ (resetModelColor st ms c).2 := by
  induction st generalizing ms c with
  | nil => exact Nat.le_refl c
  | cons e es ih =>
    cases e with
    | mk k v =>
      cases hf : findRec ms k with
      | some r =>
        by_cases hm : r.isMesh
        · rw [reset_cons_mesh v es c hf hm]
          exact Nat.le_trans (cloneMats_le v c) (ih _ _)
        · rw [reset_cons_nomesh v es c hf hm]
          exact ih ms c
      | none =>
        rw [reset_cons_none v es c hf]
        exact ih ms c

theorem reset_findRec_frame (st : Store) (ms : List MeshRec) (c : Nat) (j : Nat)
    (hj : j ∉ Store.keys st) :
    findRec (resetModelColor st ms c).1 j = findRec ms j := by
  induction st generalizing ms c with
  | nil => rfl
  | cons e es ih =>
    cases e with
    | mk k v =>
      have hjk : j ≠ k := by
        intro hh
        exact hj (by rw [hh]; exact List.mem_cons_self k _)
      have hjes : j ∉ Store.keys es := by
        intro hh
        exact hj (List.mem_cons_of_mem _ hh)
      cases hf : findRec ms k with
      | some r =>
        by_cases hm : r.isMesh
        · rw [reset_cons_mesh v es c hf hm, ih _ _ hjes,
            findRec_map_setMat_other ms k _ j hjk]
        · rw [reset_cons_nomesh v es c hf hm, ih _ _ hjes]
      | none => rw [reset_cons_none v es c hf, ih _ _ hjes]

theorem reset_meshAt (st : Store) (ms : List MeshRec) (c : Nat) (j : Nat) :
    meshAt (resetModelColor st ms c).1 j = meshAt ms j := by
  induction st generalizing ms c with
  | nil => rfl
  | cons e es ih =>
    cases e with
    | mk k v =>
      cases hf : findRec ms k with
      | some r =>
        by_cases hm : r.isMesh
        · rw [reset_cons_mesh v es c hf hm, ih _ _, meshAt_map_setMat]
        · rw [reset_cons_nomesh v es c hf hm, ih _ _]
      | none => rw [reset_cons_none v es c hf, ih _ _]

theorem reset_matSome (st : Store) (ms : List MeshRec) (c : Nat)
    (h : ∀ r ∈ ms, r.isMesh = true → r.mat.isSome) :
    ∀ r ∈ (resetModelColor st ms c).1, r.isMesh = true → r.mat.isSome := by
  induction st generalizing ms c with
  | nil => exact h
  | cons e es ih =>
    cases e with
    | mk k v =>
      cases hf : findRec ms k with
      | some r =>
        by_cases hm : r.isMesh
        · rw [reset_cons_mesh v es c hf hm]
          exact ih _ _ (matSome_map_setMat ms k _ h)
        · rw [reset_cons_nomesh v es c hf hm]
          exact ih _ _ h
      | none =>
        rw [reset_cons_none v es c hf]
        exact ih _ _ h

theorem Store.get_cons (k : Nat) (v : Mats) (es : Store) (j : Nat) :
    Store.get ((k, v) :: es) j = if k = j then some v else Store.get es j := rfl

theorem reset_get (st : Store) (ms : List MeshRec) (c : Nat)
    (h : (Store.keys st).Nodup) (j : Nat) :
    liveVals (resetModelColor st ms c).1 j =
      if resettable st ms j then storeVals st j else liveVals ms j := by
  induction st generalizing ms c with
  | nil =>
    simp [resetModelColor, resettable, Store.get]
  | cons e es ih =>
    cases e with
    | mk k v =>
      have hkeys : Store.keys ((k, v) :: es) = k :: Store.keys es := rfl
      rw [hkeys, List.nodup_cons] at h
      rcases h with ⟨hnotin, hnd⟩
      have hres : resettable ((k, v) :: es) ms j =
          if j = k then meshAt ms j else resettable es ms j := by
        unfold resettable
        rw [Store.get_cons]
        by_cases hj : j = k
        · rw [if_pos hj.symm, if_pos hj]
          simp
        · rw [if_neg (fun hh : k = j => hj hh.symm), if_neg hj]
      have hsv : storeVals ((k, v) :: es) j =
          if j = k then some v.vals else storeVals es j := by
        unfold storeVals
        rw [Store.get_cons]
        by_cases hj : j = k
        · rw [if_pos hj.symm, if_pos hj]; rfl
        · rw [if_neg (fun hh : k = j => hj hh.symm), if_neg hj]
      cases hf : findRec ms k with
      | some r =>
        by_cases hm : r.isMesh
        · rw [reset_cons_mesh v es c hf hm, ih _ _ hnd]
          by_cases hj : j = k
          · have hmj : meshAt ms k = true := by
              unfold meshAt
              rw [hf]
              exact hm
            have hcond : resettable ((k, v) :: es) ms j = true := by
              rw [hres, if_pos hj, hj]
              exact hmj
            have hesk : Store.get es j = none := Store.get_eq_none es j (hj ▸ hnotin)
            have hresj : resettable es (ms.map (setMat k (cloneMats v c).1)) j = false := by
              unfold resettable
              rw [hesk]
              rfl
            rw [hresj, if_neg (by simp), hcond, if_pos rfl, hsv, if_pos hj, hj,
              liveVals_map_setMat_self ms k _ (by rw [hf]; rfl), cloneMats_vals]
          · rw [hres, if_neg hj, hsv, if_neg hj,
              liveVals_map_setMat_other ms k _ j hj]
            unfold resettable
            rw [meshAt_map_setMat]
        · rw [reset_cons_nomesh v es c hf hm, ih _ _ hnd, hres, hsv]
          by_cases hj : j = k
          · have hesk : Store.get es j = none := Store.get_eq_none es j (hj ▸ hnotin)
            have hresj : resettable es ms j = false := by
              unfold resettable
              rw [hesk]
              rfl
            have hmj : meshAt ms j = false := by
              unfold meshAt
              rw [hj, hf]
              rw [Bool.not_eq_true] at hm
              exact hm
            rw [hresj, if_neg (by simp), if_pos hj, hmj, if_neg (by simp)]
          · simp only [if_neg hj]
      | none =>
        rw [reset_cons_none v es c hf, ih _ _ hnd, hres, hsv]
        by_cases hj : j = k
        · have hesk : Store.get es j = none := Store.get_eq_none es j (hj ▸ hnotin)
          have hresj : resettable es ms j = false := by
            unfold resettable
            rw [hesk]
            rfl
          have hmj : meshAt ms j = false := by
            unfold meshAt
            rw [hj, hf]
          rw [hresj, if_neg (by simp), if_pos hj, hmj, if_neg (by simp)]
        · simp only [if_neg hj]

theorem reset_fresh (st : Store) (ms : List MeshRec) (c : Nat)
    (h : (Store.keys st).Nodup) (j : Nat) (hr : resettable st ms j = true) :
    ∀ x ∈ liveMids (resetModelColor st ms c).1 j, c ≤ x := by
  induction st generalizing ms c with
  | nil =>
    exfalso
    unfold resettable Store.get at hr
    simp at hr
  | cons e es ih =>
    cases e with
    | mk k v =>
      have hkeys : Store.keys ((k, v) :: es) = k :: Store.keys es := rfl
      rw [hkeys, List.nodup_cons] at h
      rcases h with ⟨hnotin, hnd⟩
      by_cases hj : j = k
      · subst hj
        have hmj : meshAt ms j = true := by
          unfold resettable at hr
          rw [Store.get_cons, if_pos rfl] at hr
          simpa using hr
        unfold meshAt at hmj
        cases hf : findRec ms j with
        | none => rw [hf] at hmj; exact absurd hmj (by simp)
        | some r =>
          rw [hf] at hmj
          rw [reset_cons_mesh v es c hf hmj]
          intro x hx
          unfold liveMids at hx
          rw [reset_findRec_frame es _ _ j hnotin, findRec_map_setMat] at hx
          have hid := (findRec_some hf).1
          have hset : setMat j (cloneMats v c).1 r = { r with mat := some (cloneMats v c).1 } := by
            unfold setMat
            rw [if_pos]
            simp only [beq_iff_eq]
            exact hid
          rw [hf, Option.map_some', hset] at hx
          have hx2 : x ∈ (cloneMats v c).1.mids := by
            simpa using hx
          exact ((cloneMats_mids v c) x hx2).1
      · have hres2 : resettable es ms j = true := by
          unfold resettable at hr ⊢
          rw [Store.get_cons, if_neg (fun hh : k = j => hj hh.symm)] at hr
          exact hr
        cases hf : findRec ms k with
        | some r =>
          by_cases hm : r.isMesh
          · rw [reset_cons_mesh v es c hf hm]
            have hres3 : resettable es (ms.map (setMat k (cloneMats v c).1)) j = true := by
              unfold resettable at hres2 ⊢
              rw [meshAt_map_setMat]
              exact hres2
            intro x hx
            exact Nat.le_trans (cloneMats_le v c) (ih _ _ hnd hres3 x hx)
          · rw [reset_cons_nomesh v es c hf hm]
            exact ih _ _ hnd hres2
        | none =>
          rw [reset_cons_none v es c hf]
          exact ih _ _ hnd hres2

theorem reset_idsOf (st : Store) (ms : List MeshRec) (c : Nat) :
    idsOf (resetModelColor st ms c).1 = idsOf ms := by
  induction st generalizing ms c with
  | nil => rfl
  | cons e es ih =>
    cases e with
    | mk k v =>
      cases hf : findRec ms k with
      | some r =>
        by_cases hm : r.isMesh
        · rw [reset_cons_mesh v es c hf hm, ih _ _, idsOf_map_setMat]
        · rw [reset_cons_nomesh v es c hf hm, ih _ _]
      | none => rw [reset_cons_none v es c hf, ih _ _]

/-!
### highlightPart characterization
-/

theorem hlApply_ctr_le (ts : List Nat) (ms : List MeshRec) (c : Nat) :
    c ≤ (highlightApply ts ms c).2 := by
  induction ts generalizing ms c with
  | nil => exact Nat.le_refl c
  | cons t ts ih => exact Nat.le_trans (Nat.le_succ c) (ih _ _)

theorem hlApply_meshAt (ts : List Nat) (ms : List MeshRec) (c : Nat) (j : Nat) :
    meshAt (highlightApply ts ms c).1 j = meshAt ms j := by
  induction ts generalizing ms c with
  | nil => rfl
  | cons t ts ih =>
    unfold highlightApply
    rw [ih _ _, meshAt_map_setMat]

theorem hlApply_idsOf (ts : List Nat) (ms : List MeshRec) (c : Nat) :
    idsOf (highlightApply ts ms c).1 = idsOf ms := by
  induction ts generalizing ms c with
  | nil => rfl
  | cons t ts ih =>
    unfold highlightApply
    rw [ih _ _, idsOf_map_setMat]

theorem hlApply_matSome (ts : List Nat) (ms : List MeshRec) (c : Nat)
    (h : ∀ r ∈ ms, r.isMesh = true → r.mat.isSome) :
    ∀ r ∈ (highlightApply ts ms c).1, r.isMesh = true → r.mat.isSome := by
  induction ts generalizing ms c with
  | nil => exact h
  | cons t ts ih =>
    unfold highlightApply
    exact ih _ _ (matSome_map_setMat ms t _ h)

/-!
### The highlight/reset invariant

A session starts with a freshly loaded model `ms0` and the store populated by
the initial `collectOriginalMaterials` call of the load path (view-3d, lines
176/186).  Each user-visible highlight operation is a `clickHighlightOp`.  The
invariant says: the scene's mesh structure never changes, the store's recorded
visual parameters stay those of the freshly loaded model, and all recorded
material identities stay below the allocation counter.
-/

def StepInv (ms0 ms : List MeshRec) (st0 st : Store) (c : Nat) : Prop :=
  idsOf ms = idsOf ms0 ∧
  (∀ j, meshAt ms j = meshAt ms0 j) ∧
  (∀ r ∈ ms, r.isMesh = true → r.mat.isSome) ∧
  (∀ j, storeVals st j = storeVals st0 j) ∧
  (Store.keys st).Nodup ∧
  StoreBelow st c

theorem collectible_eq_meshAt (ms : List MeshRec) (j : Nat)
    (h : ∀ r ∈ ms, r.isMesh = true → r.mat.isSome) :
    collectible ms j = meshAt ms j := by
  unfold collectible meshAt
  cases hf : findRec ms j with
  | none => rfl
  | some r =>
    dsimp only
    by_cases hm : r.isMesh
    · rw [hm, Bool.true_and]
      exact h r (findRec_some hf).2 hm
    · rw [Bool.not_eq_true] at hm
      rw [hm, Bool.false_and]

theorem liveVals_isSome_of_collectible (ms : List MeshRec) (j : Nat)
    (h : collectible ms j = true) : (liveVals ms j).isSome := by
  unfold collectible at h
  unfold liveVals
  cases hf : findRec ms j with
  | none => rw [hf] at h; exact absurd h (by simp)
  | some r =>
    rw [hf] at h
    rcases Bool.and_eq_true_iff.mp h with ⟨_, hmat⟩
    rcases Option.isSome_iff_exists.mp hmat with ⟨mv, hmv⟩
    simp [hmv]

theorem storeVals_isSome (st : Store) (j : Nat) :
    (storeVals st j).isSome = (Store.get st j).isSome := by
  unfold storeVals
  cases Store.get st j <;> rfl

theorem clickOp_inv (ms0 : List MeshRec) (st0 : Store)
    (hnd0 : (idsOf ms0).Nodup)
    (hsome0 : ∀ j, (storeVals st0 j).isSome = meshAt ms0 j)
    (ms : List MeshRec) (st : Store) (c : Nat) (ts : List Nat)
    (hinv : StepInv ms0 ms st0 st c) :
    StepInv ms0 (clickHighlightOp ms st c ts).1 st0
      (clickHighlightOp ms st c ts).2.1 (clickHighlightOp ms st c ts).2.2 := by
  obtain ⟨hids, hmesh, hsome, hvals, hkeys, hbelow⟩ := hinv
  have hnd : (idsOf ms).Nodup := hids ▸ hnd0
  have h1ids : idsOf (resetModelColor st ms c).1 = idsOf ms0 := by
    rw [reset_idsOf]; exact hids
  have h1mesh : ∀ j, meshAt (resetModelColor st ms c).1 j = meshAt ms0 j := by
    intro j; rw [reset_meshAt]; exact hmesh j
  have h1some := reset_matSome st ms c hsome
  unfold clickHighlightOp
  by_cases hts : ts.isEmpty
  · rw [if_pos hts]
    exact ⟨h1ids, h1mesh, h1some, hvals, hkeys,
      StoreBelow_mono hbelow (reset_ctr_le st ms c)⟩
  · rw [if_neg hts]
    refine ⟨?_, ?_, ?_, ?_, ?_, ?_⟩
    · unfold highlightPart
      rw [hlApply_idsOf]
      exact h1ids
    · intro j
      unfold highlightPart
      rw [hlApply_meshAt]
      exact h1mesh j
    · unfold highlightPart
      exact hlApply_matSome _ _ _ h1some
    · intro j
      have hnd1 : (idsOf (resetModelColor st ms c).1).Nodup := h1ids ▸ hnd0
      rw [collect_get _ _ _ hnd1 j]
      have hcoll : collectible (resetModelColor st ms c).1 j = meshAt ms0 j := by
        rw [collectible_eq_meshAt _ _ h1some]
        exact h1mesh j
      rw [hcoll]
      by_cases hmj : meshAt ms0 j = true
      · rw [if_pos hmj]
        have hres : resettable st ms j = true := by
          unfold resettable
          rw [← storeVals_isSome, hvals j, hsome0 j, hmj, hmesh j, hmj]
          rfl
        rw [reset_get st ms c hkeys j, hres, if_pos rfl]
        exact hvals j
      · rw [if_neg (by simpa using hmj)]
        exact hvals j
    · exact collect_keys_nodup _ _ _ hkeys
    · apply StoreBelow_mono (collect_below _ _ _ (StoreBelow_mono hbelow (reset_ctr_le st ms c)))
      unfold highlightPart
      exact Nat.le_trans (Nat.le_succ _) (hlApply_ctr_le _ _ _)

/-- The state after the load-time capture followed by a sequence of highlight
operations. -/
def runOps (ms0 : List MeshRec) (c0 : Nat) (ops : List (List Nat)) :
    List MeshRec × Store × Nat :=
  ops.foldl (fun s t => clickHighlightOp s.1 s.2.1 s.2.2 t)
    (ms0, (collectOriginalMaterials ms0 [] c0).1, (collectOriginalMaterials ms0 [] c0).2)

theorem foldOps_inv (ms0 : List MeshRec) (st0 : Store)
    (hnd0 : (idsOf ms0).Nodup)
    (hsome0 : ∀ j, (storeVals st0 j).isSome = meshAt ms0 j)
    (ops : List (List Nat)) :
    ∀ ms st c, StepInv ms0 ms st0 st c →
      StepInv ms0 (ops.foldl (fun s t => clickHighlightOp s.1 s.2.1 s.2.2 t) (ms, st, c)).1 st0
        (ops.foldl (fun s t => clickHighlightOp s.1 s.2.1 s.2.2 t) (ms, st, c)).2.1
        (ops.foldl (fun s t => clickHighlightOp s.1 s.2.1 s.2.2 t) (ms, st, c)).2.2 := by
  induction ops with
  | nil => intro ms st c h; exact h
  | cons t ts ih =>
    intro ms st c h
    exact ih _ _ _ (clickOp_inv ms0 st0 hnd0 hsome0 ms st c t h)

/-- Well-formed freshly loaded model: node identities are distinct (distinct JS
objects) and every mesh carries a material (THREE meshes always do). -/
def WFmodel (ms : List MeshRec) : Prop :=
  (idsOf ms).Nodup ∧ ∀ r ∈ ms, r.isMesh = true → r.mat.isSome

theorem store0_isSome (ms0 : List MeshRec) (c0 : Nat) (hwf : WFmodel ms0) :
    ∀ j, (storeVals (collectOriginalMaterials ms0 [] c0).1 j).isSome = meshAt ms0 j := by
  intro j
  rw [collect_get ms0 [] c0 hwf.1 j]
  rw [collectible_eq_meshAt ms0 j hwf.2]
  by_cases hmj : meshAt ms0 j = true
  · rw [if_pos hmj, hmj]
    exact liveVals_isSome_of_collectible ms0 j
      (by rw [collectible_eq_meshAt ms0 j hwf.2]; exact hmj)
  · rw [if_neg (by simpa using hmj)]
    rw [Bool.not_eq_true] at hmj
    rw [hmj]
    rfl

theorem store0_vals (ms0 : List MeshRec) (c0 : Nat) (hwf : WFmodel ms0) (j : Nat)
    (hmj : meshAt ms0 j = true) :
    storeVals (collectOriginalMaterials ms0 [] c0).1 j = liveVals ms0 j := by
  rw [collect_get ms0 [] c0 hwf.1 j, collectible_eq_meshAt ms0 j hwf.2, hmj, if_pos rfl]

/-- Main roundtrip lemma: after the load-time capture and ANY finite sequence
of highlight operations, one `resetModelColor` gives every recorded mesh its
original visual parameters back, and assigns material objects that are
distinct from every object recorded in the store. -/
theorem highlight_reset_main (ms0 : List MeshRec) (c0 : Nat) (ops : List (List Nat))
    (hwf : WFmodel ms0) (j : Nat)
    (hj : (Store.get (runOps ms0 c0 ops).2.1 j).isSome = true) :
    liveVals (resetModelColor (runOps ms0 c0 ops).2.1 (runOps ms0 c0 ops).1
        (runOps ms0 c0 ops).2.2).1 j = liveVals ms0 j ∧
      ∀ x ∈ liveMids (resetModelColor (runOps ms0 c0 ops).2.1 (runOps ms0 c0 ops).1
        (runOps ms0 c0 ops).2.2).1 j,
        ∀ y ∈ storeMids (runOps ms0 c0 ops).2.1 j, x ≠ y := by
  unfold runOps at hj ⊢
  have hsome0 := store0_isSome ms0 c0 hwf
  have hinv0 : StepInv ms0 ms0 (collectOriginalMaterials ms0 [] c0).1
      (collectOriginalMaterials ms0 [] c0).1 (collectOriginalMaterials ms0 [] c0).2 := by
    refine ⟨rfl, fun j => rfl, hwf.2, fun j => rfl, ?_, ?_⟩
    · exact collect_keys_nodup ms0 [] c0 (by simp [Store.keys])
    · exact collect_below ms0 [] c0 (fun e he => absurd he (List.not_mem_nil e))
  have hinv := foldOps_inv ms0 (collectOriginalMaterials ms0 [] c0).1 hwf.1 hsome0 ops
    ms0 (collectOriginalMaterials ms0 [] c0).1 (collectOriginalMaterials ms0 [] c0).2 hinv0
  set F := ops.foldl (fun s t => clickHighlightOp s.1 s.2.1 s.2.2 t)
    (ms0, (collectOriginalMaterials ms0 [] c0).1, (collectOriginalMaterials ms0 [] c0).2) with hF
  obtain ⟨hids, hmesh, hsome, hvals, hkeys, hbelow⟩ := hinv
  have hmj : meshAt ms0 j = true := by
    have h1 : (storeVals F.2.1 j).isSome = true := by
      rw [storeVals_isSome]
      exact hj
    rw [hvals j, hsome0 j] at h1
    exact h1
  have hres : resettable F.2.1 F.1 j = true := by
    unfold resettable
    rw [hj, hmesh j, hmj]
    rfl
  constructor
  · rw [reset_get _ _ _ hkeys j, hres, if_pos rfl, hvals j, store0_vals ms0 c0 hwf j hmj]
  · intro x hx y hy
    have hxc := reset_fresh _ _ F.2.2 hkeys j hres x hx
    have hyc : y < F.2.2 := by
      unfold storeMids at hy
      cases hg : Store.get F.2.1 j with
      | none => rw [hg] at hy; simp at hy
      | some v =>
        rw [hg] at hy
        exact hbelow (j, v) (Store.get_mem _ j v hg) y (by simpa using hy)
    omega

/-!
## The scene graph

A THREE.Object3D hierarchy.  Each node carries its object identity, its `name`,
its `isMesh` flag, optional geometry and material resources (by identity, with
material parameters as in the material model) and a local position.  Local
transforms are modelled as translations, which is all the claims exercise.
`traverse` visits the node first and then its children in order (THREE's
documented behaviour), i.e. preorder.
-/

/-- A rational 3-vector (local position). -/
abbrev Q3 := ℚ × ℚ × ℚ

/-- A scene node: identity, name, isMesh, geometry identity, material slot,
local position, children. -/
inductive Node where
  | mk : Nat → JStr → Bool → Option Nat → Option Mats → Q3 → List Node → Node

def Node.id : Node → Nat
  | .mk i _ _ _ _ _ _ => i

def Node.name : Node → JStr
  | .mk _ nm _ _ _ _ _ => nm

def Node.isMesh : Node → Bool
  | .mk _ _ im _ _ _ _ => im

def Node.geom : Node → Option Nat
  | .mk _ _ _ g _ _ _ => g

def Node.mat : Node → Option Mats
  | .mk _ _ _ _ mt _ _ => mt

def Node.pos : Node → Q3
  | .mk _ _ _ _ _ p _ => p

def Node.children : Node → List Node
  | .mk _ _ _ _ _ _ cs => cs

/-- Replace the node's local position (`mesh.position` assignment). -/
def Node.withPos : Node → Q3 → Node
  | .mk i nm im g mt _ cs, p => .mk i nm im g mt p cs

mutual
/-- `object.traverse(cb)`: the node itself, then every child subtree in order. -/
def preorder : Node → List Node
  | .mk i nm im g mt p cs => .mk i nm im g mt p cs :: preorderList cs

def preorderList : List Node → List Node
  | [] => []
  | n :: ns => preorder n ++ preorderList ns
end

/-!
## Asset loader adapter operations (three-setup)
-/

/-- An axis-aligned bounding box as THREE.Box3 models it: `none` is the empty
box (`isEmpty()` true); otherwise min and max corners.  `Box3.setFromObject` is
an external THREE computation, passed in as an oracle where needed. -/
abbrev BoxQ := Option (Q3 × Q3)

/-- `Box3.getSize`: zero for an empty box, else `max - min` componentwise. -/
def boxSizeQ : BoxQ → Q3
  | none => (0, 0, 0)
  | some (mn, mx) => (mx.1 - mn.1, mx.2.1 - mn.2.1, mx.2.2 - mn.2.2)

/-- `Box3.getCenter`: zero for an empty box, else `(min + max) * 0.5`. -/
def boxCenterQ : BoxQ → Q3
  | none => (0, 0, 0)
  | some (mn, mx) => ((mn.1 + mx.1) / 2, (mn.2.1 + mx.2.1) / 2, (mn.2.2 + mx.2.2) / 2)

/-- `normalizeModelSizeAndPosition(mesh, floatingY)` (three-setup, lines
136-149), acting on the mesh's position given the mesh's bounding box:
subtract the box center, then raise y by half the vertical extent plus the
floating offset.  The `isFinite` guard of the source never fires over exact
rationals, which model finite coordinate data. -/
def normalizeModelSizeAndPosition (box : BoxQ) (pos : Q3) (floatingY : ℚ) : Q3 :=
  let size := boxSizeQ box
  let center := boxCenterQ box
  (pos.1 - center.1, pos.2.1 - center.2.1 + size.2.1 / 2 + floatingY, pos.2.2 - center.2.2)

/-- `mesh.geometry = mesh.geometry.clone()` (three-setup, lines 243-245): for a
mesh with geometry, a fresh geometry object replaces the shared one. -/
def refreshGeom (im : Bool) (g : Option Nat) (c : Nat) : Option Nat × Nat :=
  if im then
    match g with
    | some _ => (some c, c + 1)
    | none => (none, c)
  else (g, c)

/-- `mesh.material = ...clone...` (three-setup, lines 246-250): for a mesh with
a material slot, fresh clones replace the shared materials. -/
def refreshMat (im : Bool) (mt : Option Mats) (c : Nat) : Option Mats × Nat :=
  if im then
    match mt with
    | some mv =>
      let cl := cloneMats mv c
      (some cl.1, cl.2)
    | none => (none, c)
  else (mt, c)

/-! `refreshNode` models the re-clone traverse of `extractPartByName`
(three-setup, lines 240-252) applied to the structural copy that
`child.clone(true)` produces: `clone(true)` copies every node but SHARES
geometry and material references, so for every mesh the geometry and the
material(s) are then replaced by fresh clones. -/
mutual
def refreshNode : Node → Nat → Node × Nat
  | .mk i nm im g mt p cs, c =>
    let gr := refreshGeom im g c
    let mr := refreshMat im mt gr.2
    let cr := refreshNodes cs mr.2
    (.mk i nm im gr.1 mr.1 p cr.1, cr.2)

def refreshNodes : List Node → Nat → List Node × Nat
  | [], c => ([], c)
  | n :: ns, c =>
    let r1 := refreshNode n c
    let r2 := refreshNodes ns r1.2
    (r1.1 :: r2.1, r2.2)
end

/-- One step of the `model.traverse` callback of `extractPartByName`
(three-setup, lines 233-255): unnamed nodes are skipped; a node whose cleaned
name equals the cleaned target OVERWRITES the accumulator with its deep clone
(the traversal cannot be stopped, so a later match replaces an earlier one). -/
def extractStep (cleanedTarget : JStr) (acc : Option Node × Nat) (child : Node) :
    Option Node × Nat :=
  if child.name = ([] : JStr) then acc
  else if cleanExtract child.name = cleanedTarget then
    let t := refreshNode child acc.2
    (some t.1, t.2)
  else acc

/-- `extractPartByName(model, partName)` (three-setup, lines 224-262): traverse
the whole model accumulating the clone of the matching node, then normalize the
clone's position with floating offset 0.  `objBox` is the external
`Box3.setFromObject` oracle used by the normalization. -/
def extractPartByName (model : Node) (partName : JStr) (objBox : Node → BoxQ) (c : Nat) :
    Option Node × Nat :=
  match (preorder model).foldl (extractStep (jsTrim (jsToLower partName))) (none, c) with
  | (some t, c1) => (some (t.withPos (normalizeModelSizeAndPosition (objBox t) t.pos 0)), c1)
  | (none, c1) => (none, c1)

/-- JS `Set.add`: append if not already present (insertion order preserved). -/
def insertSet (s : List JStr) (x : JStr) : List JStr := if x ∈ s then s else s ++ [x]

/-- One step of the traverse callback of `getTopLevelNodes` (three-setup, lines
276-282): skip unnamed nodes; add the cleaned name when it is nonempty and not
a reserved placeholder. -/
def topStep (s : List JStr) (ch : Node) : List JStr :=
  if ch.name = ([] : JStr) then s
  else
    let c := cleanTopLevel ch.name
    if c ≠ ([] : JStr) ∧ c ≠ lit ("default") ∧ c ≠ lit ("scene") then insertSet s c
    else s

/-- `getTopLevelNodes(url)` (three-setup, lines 268-293), applied to the result
of the external `loadAsync` (`none` models the failure path, whose catch
returns an empty list): collect the distinct cleaned names of all named nodes,
excluding empty, "default" and "scene"; when that set is empty and the root is
named, fall back to adding the root's cleaned name (with no exclusion check). -/
def getTopLevelNodes (loaded : Option Node) : List JStr :=
  match loaded with
  | none => []
  | some model =>
    let s := (preorder model).foldl topStep []
    if s = [] ∧ model.name ≠ ([] : JStr) then insertSet s (cleanTopLevel model.name) else s

/-!
## Picking (getIntersects) and click selection (handleClick)
-/

/-- The container's bounding client rect. -/
structure RectD where
  left : ℚ
  top : ℚ
  width : ℚ
  height : ℚ
deriving DecidableEq

/-- `getIntersects(clientX, clientY, container, scene)` (three-setup, lines
321-338): degenerate rects give no hit; the pointer is converted to normalized
device coordinates; a missing `scene.mesh` gives no hit; otherwise the external
recursive raycast (`raycaster.intersectObject(mesh, true)`, passed in as
`cast`, returning hit object identities nearest first) is consulted and the
nearest hit is returned. -/
def getIntersects (clientX clientY : ℚ) (rect : RectD) (meshId : Option Nat)
    (cast : ℚ × ℚ → Nat → List Nat) : Option Nat :=
  if rect.width = 0 ∨ rect.height = 0 then none
  else
    let mx := ((clientX - rect.left) / rect.width) * 2 - 1
    let my := -((clientY - rect.top) / rect.height) * 2 + 1
    match meshId with
    | none => none
    | some m => (cast (mx, my) m).head?

/-- First node with the given identity, in traverse order. -/
def findNode (root : Node) (k : Nat) : Option Node :=
  (preorder root).find? (fun n => n.id == k)

/-- The identity of the parent of node `k` inside `root`, if any. -/
def parentIn (root : Node) (k : Nat) : Option Nat :=
  ((preorder root).find? (fun n => n.children.any (fun c => c.id == k))).map Node.id

/-- Number of nodes, used as climbing fuel (a parent chain is shorter). -/
def nodeCount (n : Node) : Nat := (preorder n).length

/-- The ancestor walk of `handleClick` (view-3d, lines 350-353):
`while (sel.parent && sel.parent !== current.mesh) sel = sel.parent`. -/
def climb (scene : Node) (meshId : Nat) : Nat → Nat → Nat
  | 0, sel => sel
  | fuel + 1, sel =>
    match parentIn scene sel with
    | none => sel
    | some p => if p = meshId then sel else climb scene meshId fuel p

/-- Name of node `k` inside `root` (empty when absent, like a missing name). -/
def nameOf (root : Node) (k : Nat) : JStr := ((findNode root k).map Node.name).getD []

/-- Identities of the meshes in the subtree of node `k` (the
`sel.traverse` collection of `meshesToHighlight`). -/
def meshIdsUnder (root : Node) (k : Nat) : List Nat :=
  match findNode root k with
  | some n => ((preorder n).filter (fun x => x.isMesh)).map Node.id
  | none => []

/-- The state `handleClick` reads and writes: the THREE.Scene (whose children
include the attached model), `interactive.mesh`, the live mesh materials, the
snapshot store and the allocation counter. -/
structure ClickSession where
  sceneTree : Node
  meshId : Option Nat
  meshes : List MeshRec
  store : Store
  ctr : Nat

/-- What one click produces: the new `currentSelectedPart`, the value reported
through `onPartSelected` (`none` = not called), the updated live materials,
store and counter, and which object the camera was re-framed to. -/
structure ClickOut where
  selected : Option JStr
  reported : Option (Option JStr)
  meshes : List MeshRec
  store : Store
  ctr : Nat
  framed : Option Nat

/-- `handleClick` (view-3d, lines 321-397).  Camera framing is recorded by
identity in `framed`; its geometry is the subject of the camera-fitting model
below. -/
def handleClick (cs : ClickSession) (thumbnailMode : Bool) (rect : RectD)
    (clientX clientY : ℚ) (cast : ℚ × ℚ → Nat → List Nat)
    (currentSelectedPart : Option JStr) : ClickOut :=
  match cs.meshId with
  | none => ⟨currentSelectedPart, none, cs.meshes, cs.store, cs.ctr, none⟩
  | some m =>
    if thumbnailMode then ⟨currentSelectedPart, none, cs.meshes, cs.store, cs.ctr, none⟩
    else
      match getIntersects clientX clientY rect (some m) cast with
      | none =>
        let r := resetModelColor cs.store cs.meshes cs.ctr
        ⟨none, some none, r.1, cs.store, r.2, none⟩
      | some hit =>
        let sel := climb cs.sceneTree m (nodeCount cs.sceneTree) hit
        if sel = m then
          let r := resetModelColor cs.store cs.meshes cs.ctr
          ⟨none, some none, r.1, cs.store, r.2, none⟩
        else
          let nm := nameOf cs.sceneTree sel
          let partName : Option JStr := if nm = ([] : JStr) then none else some (clickPartName nm)
          match partName with
          | none =>
            let r := resetModelColor cs.store cs.meshes cs.ctr
            ⟨none, some none, r.1, cs.store, r.2, none⟩
          | some pn =>
            if pn = ([] : JStr) then
              let r := resetModelColor cs.store cs.meshes cs.ctr
              ⟨none, some none, r.1, cs.store, r.2, none⟩
            else
              let newSel : Option JStr := if currentSelectedPart = some pn then none else some pn
              let r := resetModelColor cs.store cs.meshes cs.ctr
              match newSel with
              | some _ =>
                let targets := meshIdsUnder cs.sceneTree sel
                if targets = [] then ⟨newSel, some newSel, r.1, cs.store, r.2, none⟩
                else
                  let r2 := collectOriginalMaterials r.1 cs.store r.2
                  let r3 := highlightPart targets r.1 r2.2
                  ⟨newSel, some newSel, r3.1, r2.1, r3.2, some sel⟩
              | none => ⟨none, some none, r.1, cs.store, r.2, some m⟩

/-!
### Preorder and resource lemmas

`resList` collects all geometry and material identities of a subtree: the
mutable GPU-resource state the spec's "shares no mutable state" clause is
about.
-/

mutual
def resList : Node → List Nat
  | .mk _ _ _ g mt _ cs => g.toList ++ ((mt.map Mats.mids).getD []) ++ resListL cs

def resListL : List Node → List Nat
  | [] => []
  | n :: ns => resList n ++ resListL ns
end

theorem preorder_mk (i : Nat) (nm : JStr) (im : Bool) (g : Option Nat) (mt : Option Mats)
    (p : Q3) (cs : List Node) :
    preorder (.mk i nm im g mt p cs) = .mk i nm im g mt p cs :: preorderList cs := by
  rw [preorder.eq_def]

theorem resList_mk (i : Nat) (nm : JStr) (im : Bool) (g : Option Nat) (mt : Option Mats)
    (p : Q3) (cs : List Node) :
    resList (.mk i nm im g mt p cs) =
      g.toList ++ ((mt.map Mats.mids).getD []) ++ resListL cs := by
  rw [resList.eq_def]

theorem refreshNode_mk (i : Nat) (nm : JStr) (im : Bool) (g : Option Nat) (mt : Option Mats)
    (p : Q3) (cs : List Node) (c : Nat) :
    refreshNode (.mk i nm im g mt p cs) c =
      (.mk i nm im (refreshGeom im g c).1 (refreshMat im mt (refreshGeom im g c).2).1 p
        (refreshNodes cs (refreshMat im mt (refreshGeom im g c).2).2).1,
       (refreshNodes cs (refreshMat im mt (refreshGeom im g c).2).2).2) := by
  rw [refreshNode.eq_def]

theorem refreshNodes_nil (c : Nat) : refreshNodes [] c = ([], c) := by
  rw [refreshNodes.eq_def]

theorem refreshNodes_cons (n : Node) (ns : List Node) (c : Nat) :
    refreshNodes (n :: ns) c =
      ((refreshNode n c).1 :: (refreshNodes ns (refreshNode n c).2).1,
       (refreshNodes ns (refreshNode n c).2).2) := by
  rw [refreshNodes.eq_def]

theorem preorderList_nil : preorderList [] = [] := by
  rw [preorderList.eq_def]

theorem preorderList_cons (n : Node) (ns : List Node) :
    preorderList (n :: ns) = preorder n ++ preorderList ns := by
  rw [preorderList.eq_def]

theorem resListL_nil : resListL [] = [] := by
  rw [resListL.eq_def]

theorem resListL_cons (n : Node) (ns : List Node) :
    resListL (n :: ns) = resList n ++ resListL ns := by
  rw [resListL.eq_def]

theorem mem_preorderList {x : Node} {l : List Node} :
    x ∈ preorderList l ↔ ∃ n ∈ l, x ∈ preorder n := by
  induction l with
  | nil => simp [preorderList_nil]
  | cons n ns ih =>
    rw [preorderList_cons]
    simp only [List.mem_append, ih, List.mem_cons]
    constructor
    · intro h
      rcases h with h | ⟨n2, hn2, hx⟩
      · exact ⟨n, Or.inl rfl, h⟩
      · exact ⟨n2, Or.inr hn2, hx⟩
    · intro ⟨n2, hn2, hx⟩
      rcases hn2 with h | h
      · exact Or.inl (h ▸ hx)
      · exact Or.inr ⟨n2, h, hx⟩

theorem self_mem_preorder (n : Node) : n ∈ preorder n := by
  cases n with
  | mk i nm im g mt p cs => rw [preorder_mk]; exact List.mem_cons_self _ _

mutual
theorem preorder_trans : ∀ (n x : Node), x ∈ preorder n → ∀ y ∈ preorder x, y ∈ preorder n
  | .mk i nm im g mt p cs, x, hx, y, hy => by
    rw [preorder_mk] at hx ⊢
    rcases List.mem_cons.mp hx with h | h
    · subst h
      rw [preorder_mk] at hy
      exact hy
    · exact List.mem_cons_of_mem _ (preorderList_trans cs x h y hy)

theorem preorderList_trans : ∀ (l : List Node) (x : Node), x ∈ preorderList l →
    ∀ y ∈ preorder x, y ∈ preorderList l
  | n :: ns, x, hx, y, hy => by
    rw [preorderList_cons] at hx ⊢
    rcases List.mem_append.mp hx with h | h
    · exact List.mem_append.mpr (Or.inl (preorder_trans n x h y hy))
    · exact List.mem_append.mpr (Or.inr (preorderList_trans ns x h y hy))
end

/-- Subtree well-formedness: only meshes carry geometry or material resources
(THREE: only Mesh objects do among the node kinds this viewer loads). -/
def WFtree (n : Node) : Prop :=
  ∀ x ∈ preorder n, x.isMesh = false → x.geom = none ∧ x.mat = none

theorem refreshGeom_le (im : Bool) (g : Option Nat) (c : Nat) :
    c ≤ (refreshGeom im g c).2 := by
  unfold refreshGeom
  by_cases him : im = true
  · rw [if_pos him]
    cases g with
    | some gv => exact Nat.le_succ c
    | none => exact Nat.le_refl c
  · rw [if_neg him]

theorem refreshMat_le (im : Bool) (mt : Option Mats) (c : Nat) :
    c ≤ (refreshMat im mt c).2 := by
  unfold refreshMat
  by_cases him : im = true
  · rw [if_pos him]
    cases mt with
    | some mv => exact cloneMats_le mv c
    | none => exact Nat.le_refl c
  · rw [if_neg him]

theorem refreshGeom_mem (im : Bool) (g : Option Nat) (c : Nat)
    (h : im = true ∨ g = none) :
    ∀ y ∈ (refreshGeom im g c).1.toList, c ≤ y ∧ y < (refreshGeom im g c).2 := by
  unfold refreshGeom
  rcases h with him | hg
  · rw [if_pos him]
    cases g with
    | some gv =>
      intro y hy
      simp only [Option.toList_some, List.mem_singleton] at hy
      rw [hy]
      exact ⟨Nat.le_refl c, Nat.lt_succ_self c⟩
    | none => intro y hy; simp [Option.toList] at hy
  · rw [hg]
    intro y hy
    by_cases him : im = true
    · rw [if_pos him] at hy
      simp [Option.toList] at hy
    · rw [if_neg him] at hy
      simp [Option.toList] at hy

theorem refreshMat_mem (im : Bool) (mt : Option Mats) (c : Nat)
    (h : im = true ∨ mt = none) :
    ∀ y ∈ ((refreshMat im mt c).1.map Mats.mids).getD [], c ≤ y ∧ y < (refreshMat im mt c).2 := by
  unfold refreshMat
  rcases h with him | hm
  · rw [if_pos him]
    cases mt with
    | some mv =>
      intro y hy
      simp only [Option.map_some', Option.getD_some] at hy
      exact cloneMats_mids mv c y hy
    | none => intro y hy; simp at hy
  · rw [hm]
    intro y hy
    by_cases him : im = true
    · rw [if_pos him] at hy
      simp at hy
    · rw [if_neg him] at hy
      simp at hy

mutual
theorem refreshNode_ctr_le : ∀ (n : Node) (c : Nat), c ≤ (refreshNode n c).2
  | .mk i nm im g mt p cs, c => by
    rw [refreshNode_mk]
    exact Nat.le_trans (refreshGeom_le im g c)
      (Nat.le_trans (refreshMat_le im mt _) (refreshNodes_ctr_le cs _))

theorem refreshNodes_ctr_le : ∀ (l : List Node) (c : Nat), c ≤ (refreshNodes l c).2
  | [], c => by rw [refreshNodes_nil]
  | n :: ns, c => by
    rw [refreshNodes_cons]
    exact Nat.le_trans (refreshNode_ctr_le n c) (refreshNodes_ctr_le ns _)
end

theorem refreshNode_name (n : Node) (c : Nat) : (refreshNode n c).1.name = n.name := by
  cases n with
  | mk i nm im g mt p cs => rw [refreshNode_mk]; rfl

mutual
theorem refreshNode_res_bounds : ∀ (n : Node) (c : Nat),
    (∀ x ∈ preorder n, x.isMesh = false → x.geom = none ∧ x.mat = none) →
    ∀ y ∈ resList (refreshNode n c).1, c ≤ y ∧ y < (refreshNode n c).2
  | .mk i nm im g mt p cs, c, hwf, y, hy => by
    rw [refreshNode_mk] at hy ⊢
    rw [resList_mk] at hy
    have hcs : ∀ x ∈ preorderList cs, x.isMesh = false → x.geom = none ∧ x.mat = none := by
      intro x hx
      exact hwf x (by rw [preorder_mk]; exact List.mem_cons_of_mem _ hx)
    have hself := hwf (.mk i nm im g mt p cs) (self_mem_preorder _)
    rcases List.mem_append.mp hy with hy1 | hy2
    · rcases List.mem_append.mp hy1 with hg | hm
      · have hcond : im = true ∨ g = none := by
          by_cases him : im = true
          · exact Or.inl him
          · rw [Bool.not_eq_true] at him
            exact Or.inr (hself him).1
        rcases refreshGeom_mem im g c hcond y hg with ⟨h1, h2⟩
        exact ⟨h1, Nat.lt_of_lt_of_le h2
          (Nat.le_trans (refreshMat_le im mt _) (refreshNodes_ctr_le cs _))⟩
      · have hcond : im = true ∨ mt = none := by
          by_cases him : im = true
          · exact Or.inl him
          · rw [Bool.not_eq_true] at him
            exact Or.inr (hself him).2
        rcases refreshMat_mem im mt _ hcond y hm with ⟨h1, h2⟩
        exact ⟨Nat.le_trans (refreshGeom_le im g c) h1,
          Nat.lt_of_lt_of_le h2 (refreshNodes_ctr_le cs _)⟩
    · rcases refreshNodes_res_bounds cs _ hcs y hy2 with ⟨h1, h2⟩
      exact ⟨Nat.le_trans (refreshGeom_le im g c)
        (Nat.le_trans (refreshMat_le im mt _) h1), h2⟩

theorem refreshNodes_res_bounds : ∀ (l : List Node) (c : Nat),
    (∀ x ∈ preorderList l, x.isMesh = false → x.geom = none ∧ x.mat = none) →
    ∀ y ∈ resListL (refreshNodes l c).1, c ≤ y ∧ y < (refreshNodes l c).2
  | [], c, _, y, hy => by
    rw [refreshNodes_nil] at hy
    rw [resListL_nil] at hy
    exact absurd hy (List.not_mem_nil y)
  | n :: ns, c, hwf, y, hy => by
    rw [refreshNodes_cons] at hy ⊢
    rw [resListL_cons] at hy
    have hn : ∀ x ∈ preorder n, x.isMesh = false → x.geom = none ∧ x.mat = none := by
      intro x hx
      exact hwf x (by rw [preorderList_cons]; exact List.mem_append.mpr (Or.inl hx))
    have hns : ∀ x ∈ preorderList ns, x.isMesh = false → x.geom = none ∧ x.mat = none := by
      intro x hx
      exact hwf x (by rw [preorderList_cons]; exact List.mem_append.mpr (Or.inr hx))
    rcases List.mem_append.mp hy with h | h
    · rcases refreshNode_res_bounds n c hn y h with ⟨h1, h2⟩
      exact ⟨h1, Nat.lt_of_lt_of_le h2 (refreshNodes_ctr_le ns _)⟩
    · rcases refreshNodes_res_bounds ns _ hns y h with ⟨h1, h2⟩
      exact ⟨Nat.le_trans (refreshNode_ctr_le n c) h1, h2⟩
end

theorem resList_withPos (n : Node) (p : Q3) : resList (n.withPos p) = resList n := by
  cases n with
  | mk i nm im g mt p0 cs => rw [Node.withPos, resList_mk, resList_mk]

theorem name_withPos (n : Node) (p : Q3) : (n.withPos p).name = n.name := by
  cases n with
  | mk i nm im g mt p0 cs => rw [Node.withPos]; rfl

/-!
### extractPartByName characterization

The traverse of `extractPartByName` cannot be stopped early, so every matching
node overwrites the accumulator: the function returns a clone of the LAST
match in traverse order, not the first.
-/

/-- The match test of the extract traverse: named, and cleaned name equal to
the cleaned target. -/
def matchPred (tgt : JStr) (n : Node) : Bool :=
  !(n.name == ([] : JStr)) && (cleanExtract n.name == tgt)

/-- The matching nodes of a model, in traverse order. -/
def extractMatches (model : Node) (partName : JStr) : List Node :=
  (preorder model).filter (matchPred (jsTrim (jsToLower partName)))

theorem extractStep_match {tgt : JStr} {n : Node} (h : matchPred tgt n = true)
    (acc : Option Node × Nat) :
    extractStep tgt acc n = (some (refreshNode n acc.2).1, (refreshNode n acc.2).2) := by
  unfold matchPred at h
  simp only [Bool.and_eq_true, Bool.not_eq_true', beq_eq_false_iff_ne, ne_eq, beq_iff_eq] at h
  unfold extractStep
  rw [if_neg h.1, if_pos h.2]

theorem extractStep_nomatch {tgt : JStr} {n : Node} (h : matchPred tgt n = false)
    (acc : Option Node × Nat) :
    extractStep tgt acc n = acc := by
  unfold matchPred at h
  unfold extractStep
  by_cases hn : n.name = ([] : JStr)
  · rw [if_pos hn]
  · rw [if_neg hn]
    have h2 : ¬ cleanExtract n.name = tgt := by
      intro hc
      rw [Bool.and_eq_false_iff] at h
      rcases h with h | h
      · simp only [Bool.not_eq_false', beq_iff_eq] at h
        exact hn h
      · simp only [beq_eq_false_iff_ne, ne_eq] at h
        exact h hc
    rw [if_neg h2]

theorem extract_fold (tgt : JStr) (l : List Node) :
    ∀ (acc : Option Node) (c : Nat),
      ((l.filter (matchPred tgt)) = [] → l.foldl (extractStep tgt) (acc, c) = (acc, c)) ∧
      (∀ lm, (l.filter (matchPred tgt)).getLast? = some lm →
        ∃ c2, c ≤ c2 ∧
          l.foldl (extractStep tgt) (acc, c) =
            (some (refreshNode lm c2).1, (refreshNode lm c2).2)) := by
  induction l with
  | nil =>
    intro acc c
    exact ⟨fun _ => rfl, fun lm h => by simp at h⟩
  | cons x xs ih =>
    intro acc c
    by_cases hx : matchPred tgt x = true
    · rw [List.foldl_cons, extractStep_match hx]
      have hfil : (x :: xs).filter (matchPred tgt) = x :: xs.filter (matchPred tgt) :=
        List.filter_cons_of_pos hx
      constructor
      · intro h
        rw [hfil] at h
        exact absurd h (List.cons_ne_nil x _)
      · intro lm hlm
        rw [hfil] at hlm
        cases hxs : xs.filter (matchPred tgt) with
        | nil =>
          rw [hxs] at hlm
          have hlmx : lm = x := by
            simp only [List.getLast?_singleton, Option.some_inj] at hlm
            exact hlm.symm
          have hrest := (ih (some (refreshNode x c).1) (refreshNode x c).2).1 hxs
          rw [hrest, hlmx]
          exact ⟨c, Nat.le_refl c, rfl⟩
        | cons y ys =>
          have hlm2 : (xs.filter (matchPred tgt)).getLast? = some lm := by
            rw [hxs]
            rw [hxs] at hlm
            rw [List.getLast?_cons_cons] at hlm
            exact hlm
          rcases (ih (some (refreshNode x c).1) (refreshNode x c).2).2 lm hlm2 with
            ⟨c2, hc2, hfold⟩
          exact ⟨c2, Nat.le_trans (refreshNode_ctr_le x c) hc2, hfold⟩
    · have hx2 : matchPred tgt x = false := by rwa [Bool.not_eq_true] at hx
      rw [List.foldl_cons, extractStep_nomatch hx2,
        List.filter_cons_of_neg (by rw [hx2]; simp)]
      exact ih acc c

theorem extract_of_matches_nil (model : Node) (p : JStr) (objBox : Node → BoxQ) (c : Nat)
    (h : extractMatches model p = []) :
    extractPartByName model p objBox c = (none, c) := by
  unfold extractPartByName
  rw [(extract_fold (jsTrim (jsToLower p)) (preorder model) none c).1 h]

theorem extract_of_getLast (model : Node) (p : JStr) (objBox : Node → BoxQ) (c : Nat)
    (lm : Node) (h : (extractMatches model p).getLast? = some lm) :
    ∃ c2, c ≤ c2 ∧
      extractPartByName model p objBox c =
        (some ((refreshNode lm c2).1.withPos
          (normalizeModelSizeAndPosition (objBox (refreshNode lm c2).1)
            (refreshNode lm c2).1.pos 0)),
         (refreshNode lm c2).2) := by
  rcases (extract_fold (jsTrim (jsToLower p)) (preorder model) none c).2 lm h with
    ⟨c2, hc2, hfold⟩
  refine ⟨c2, hc2, ?_⟩
  unfold extractPartByName
  rw [hfold]

theorem extractMatches_mem {model : Node} {p : JStr} {n : Node}
    (h : n ∈ extractMatches model p) : n ∈ preorder model :=
  List.mem_of_mem_filter h

mutual
theorem resList_sub : ∀ (n x : Node), x ∈ preorder n → ∀ y ∈ resList x, y ∈ resList n
  | .mk i nm im g mt p cs, x, hx, y, hy => by
    rw [preorder_mk] at hx
    rw [resList_mk]
    rcases List.mem_cons.mp hx with h | h
    · rw [h] at hy
      rw [resList_mk] at hy
      exact hy
    · exact List.mem_append.mpr (Or.inr (resListL_sub cs x h y hy))

theorem resListL_sub : ∀ (l : List Node) (x : Node), x ∈ preorderList l →
    ∀ y ∈ resList x, y ∈ resListL l
  | [], x, hx, y, _ => by
    rw [preorderList_nil] at hx
    exact absurd hx (List.not_mem_nil x)
  | n :: ns, x, hx, y, hy => by
    rw [preorderList_cons] at hx
    rw [resListL_cons]
    rcases List.mem_append.mp hx with h | h
    · exact List.mem_append.mpr (Or.inl (resList_sub n x h y hy))
    · exact List.mem_append.mpr (Or.inr (resListL_sub ns x h y hy))
end

/-!
### getTopLevelNodes characterization
-/

theorem mem_insertSet {s : List JStr} {x y : JStr} :
    y ∈ insertSet s x ↔ y ∈ s ∨ y = x := by
  unfold insertSet
  by_cases h : x ∈ s
  · rw [if_pos h]
    constructor
    · exact Or.inl
    · intro hy
      rcases hy with hy | hy
      · exact hy
      · exact hy ▸ h
  · rw [if_neg h]
    simp [List.mem_append]

theorem insertSet_nodup {s : List JStr} {x : JStr} (h : s.Nodup) :
    (insertSet s x).Nodup := by
  unfold insertSet
  by_cases hx : x ∈ s
  · rw [if_pos hx]; exact h
  · rw [if_neg hx]
    rw [List.nodup_append]
    exact ⟨h, List.nodup_singleton x, by simpa [List.disjoint_singleton] using hx⟩

theorem topStep_cases (s : List JStr) (n : Node) :
    topStep s n = s ∨
      (n.name ≠ ([] : JStr) ∧ topStep s n = insertSet s (cleanTopLevel n.name) ∧
        cleanTopLevel n.name ≠ ([] : JStr) ∧ cleanTopLevel n.name ≠ lit ("default") ∧
        cleanTopLevel n.name ≠ lit ("scene")) := by
  unfold topStep
  by_cases h1 : n.name = ([] : JStr)
  · rw [if_pos h1]; exact Or.inl rfl
  · rw [if_neg h1]
    by_cases h2 : cleanTopLevel n.name ≠ ([] : JStr) ∧
        cleanTopLevel n.name ≠ lit ("default") ∧ cleanTopLevel n.name ≠ lit ("scene")
    · rw [if_pos h2]
      exact Or.inr ⟨h1, rfl, h2.1, h2.2.1, h2.2.2⟩
    · rw [if_neg h2]; exact Or.inl rfl

theorem topFold_nodup (l : List Node) :
    ∀ s : List JStr, s.Nodup → (l.foldl topStep s).Nodup := by
  induction l with
  | nil => intro s h; exact h
  | cons n ns ih =>
    intro s h
    rw [List.foldl_cons]
    rcases topStep_cases s n with hc | ⟨_, hc, _, _, _⟩
    · rw [hc]; exact ih s h
    · rw [hc]; exact ih _ (insertSet_nodup h)

theorem topFold_mem (l : List Node) :
    ∀ (s : List JStr) (x : JStr), x ∈ l.foldl topStep s →
      x ∈ s ∨ ∃ n ∈ l, n.name ≠ ([] : JStr) ∧ x = cleanTopLevel n.name ∧
        x ≠ ([] : JStr) ∧ x ≠ lit ("default") ∧ x ≠ lit ("scene") := by
  induction l with
  | nil => intro s x h; exact Or.inl h
  | cons n ns ih =>
    intro s x h
    rw [List.foldl_cons] at h
    rcases topStep_cases s n with hc | ⟨hn1, hc, hn2, hn3, hn4⟩
    · rw [hc] at h
      rcases ih s x h with h2 | ⟨n2, hn2, hrest⟩
      · exact Or.inl h2
      · exact Or.inr ⟨n2, List.mem_cons_of_mem n hn2, hrest⟩
    · rw [hc] at h
      rcases ih _ x h with h2 | ⟨n2, hmem, hrest⟩
      · rcases mem_insertSet.mp h2 with h3 | h3
        · exact Or.inl h3
        · exact Or.inr ⟨n, List.mem_cons_self n ns,
            hn1, h3, h3 ▸ hn2, h3 ▸ hn3, h3 ▸ hn4⟩
      · exact Or.inr ⟨n2, List.mem_cons_of_mem n hmem, hrest⟩

/-- Content of `getTopLevelNodes`: failure gives the empty list; the result has
no duplicates; every element is the derived identity of some named node; and
every element is reserved-free UNLESS it entered through the root-name
fallback. -/
theorem getTop_content (loaded : Option Node) :
    (loaded = none → getTopLevelNodes loaded = []) ∧
    (getTopLevelNodes loaded).Nodup ∧
    ∀ model, loaded = some model →
      ∀ x ∈ getTopLevelNodes loaded,
        (∃ n ∈ preorder model, n.name ≠ ([] : JStr) ∧ x = cleanTopLevel n.name) ∧
        ((x ≠ ([] : JStr) ∧ x ≠ lit ("default") ∧ x ≠ lit ("scene")) ∨
          x = cleanTopLevel model.name) := by
  cases loaded with
  | none =>
    refine ⟨fun _ => rfl, by simp [getTopLevelNodes], ?_⟩
    intro model h
    exact absurd h (by simp)
  | some model =>
    refine ⟨fun h => absurd h (by simp), ?_, ?_⟩
    · unfold getTopLevelNodes
      dsimp only
      by_cases hc : (preorder model).foldl topStep [] = [] ∧ model.name ≠ ([] : JStr)
      · rw [if_pos hc]
        exact insertSet_nodup (topFold_nodup (preorder model) [] List.nodup_nil)
      · rw [if_neg hc]
        exact topFold_nodup (preorder model) [] List.nodup_nil
    · intro model2 hm x hx
      have hmm : model2 = model := by injection hm.symm
      subst hmm
      unfold getTopLevelNodes at hx
      dsimp only at hx
      by_cases hc : (preorder model2).foldl topStep [] = [] ∧ model2.name ≠ ([] : JStr)
      · rw [if_pos hc] at hx
        rcases mem_insertSet.mp hx with h2 | h2
        · rw [hc.1] at h2
          exact absurd h2 (List.not_mem_nil x)
        · exact ⟨⟨model2, self_mem_preorder model2, hc.2, h2⟩, Or.inr h2⟩
      · rw [if_neg hc] at hx
        rcases topFold_mem (preorder model2) [] x hx with h2 | ⟨n, hmem, hn1, hn2, hrest⟩
        · exact absurd h2 (List.not_mem_nil x)
        · exact ⟨⟨n, hmem, hn1, hn2⟩, Or.inl hrest⟩

/-!
## Camera fitting: ideal-real model

`fitCameraToObject` (three-setup, lines 343-372), with doubles idealized as
real numbers (no rounding, no overflow), for the geometric contract of the
valid-box case.  The bounding box is the result of the external
`Box3.setFromObject` call and is passed in (`none` = THREE's empty box).
-/

namespace FitR

/-- A real 3-vector. -/
abbrev V3 := ℝ × ℝ × ℝ

def vadd (a b : V3) : V3 := (a.1 + b.1, a.2.1 + b.2.1, a.2.2 + b.2.2)

def vsub (a b : V3) : V3 := (a.1 - b.1, a.2.1 - b.2.1, a.2.2 - b.2.2)

def vsmul (s : ℝ) (a : V3) : V3 := (s * a.1, s * a.2.1, s * a.2.2)

/-- THREE `Vector3.lengthSq`: `x*x + y*y + z*z`. -/
def lengthSq (a : V3) : ℝ := a.1 * a.1 + a.2.1 * a.2.1 + a.2.2 * a.2.2

noncomputable def norm3 (a : V3) : ℝ := Real.sqrt (lengthSq a)

/-- THREE `Vector3.normalize`: `divideScalar(length() || 1)`, i.e. multiply by
the reciprocal of the length, with a zero length replaced by 1. -/
noncomputable def normalize3 (a : V3) : V3 :=
  vsmul (1 / (if norm3 a = 0 then 1 else norm3 a)) a

/-- A box: `none` is THREE's empty box, else min and max corners. -/
abbrev BoxR := Option (V3 × V3)

/-- `Box3.getSize`: zero for an empty box, else `max - min`. -/
def boxSize : BoxR → V3
  | none => (0, 0, 0)
  | some (mn, mx) => vsub mx mn

/-- `Box3.getCenter`: zero for an empty box, else `(min + max) * 0.5`. -/
noncomputable def boxCenter : BoxR → V3
  | none => (0, 0, 0)
  | some (mn, mx) => vsmul 0.5 (vadd mn mx)

/-- The perspective camera state `fitCameraToObject` reads: position and
vertical field of view in degrees. -/
structure Camera where
  pos : V3
  fov : ℝ

/-- The orbit controls state: the `target`. -/
structure Controls where
  target : V3

/-- What the call writes: `camera.position` and `controls.target` (`lookAt` and
`controls.update` carry no further modelled state). -/
structure FitOut where
  pos : V3
  target : V3

/-- `Math.max(size.x, size.y, size.z)` (line 352). -/
noncomputable def maxDimOf (box : BoxR) : ℝ :=
  max (boxSize box).1 (max (boxSize box).2.1 (boxSize box).2.2)

/-- `const effectiveDim = maxDim > 0.01 ? maxDim : SAFE_DIM` (lines 353-354). -/
noncomputable def effectiveDimR (box : BoxR) : ℝ :=
  if maxDimOf box > 0.01 then maxDimOf box else 200

/-- `cameraZ = |effectiveDim / 2 / tan(fov_rad / 2)| * 1.3` (lines 356-358). -/
noncomputable def cameraZR (cam : Camera) (box : BoxR) : ℝ :=
  |effectiveDimR box / 2 / Real.tan (cam.fov * (Real.pi / 180) / 2)| * 1.3

/-- `originalPos` (lines 360-365): previous viewing direction
`camera.position - controls.target`, replaced by the default diagonal
`(1, 0.6, 1)` when its squared length is below 0.01. -/
noncomputable def originalPosR (cam : Camera) (ctl : Controls) : V3 :=
  if lengthSq (vsub cam.pos ctl.target) < 0.01 then ((1 : ℝ), (0.6 : ℝ), (1 : ℝ))
  else vsub cam.pos ctl.target

/-- `fitCameraToObject` (lines 343-372): the camera moves to
`center + normalize(originalPos) * (cameraZ * 1.5)` and the controls' target
becomes the box center. -/
noncomputable def fitCameraToObject (cam : Camera) (ctl : Controls) (box : BoxR) : FitOut :=
  ⟨vadd (boxCenter box)
    (vsmul (cameraZR cam box * 1.5) (normalize3 (originalPosR cam ctl))),
   boxCenter box⟩

theorem vsub_vadd_cancel (c d : V3) : vsub (vadd c d) c = d := by
  unfold vsub vadd
  ext1
  · ring
  · ext1
    · ring
    · ring

theorem vsmul_vsmul (a b : ℝ) (v : V3) : vsmul a (vsmul b v) = vsmul (a * b) v := by
  unfold vsmul
  ext1
  · ring
  · ext1
    · ring
    · ring

theorem lengthSq_vsmul (s : ℝ) (a : V3) : lengthSq (vsmul s a) = s ^ 2 * lengthSq a := by
  unfold lengthSq vsmul
  ring

theorem lengthSq_nonneg (a : V3) : 0 ≤ lengthSq a := by
  unfold lengthSq
  exact add_nonneg (add_nonneg (mul_self_nonneg _) (mul_self_nonneg _)) (mul_self_nonneg _)

theorem norm3_nonneg (a : V3) : 0 ≤ norm3 a := Real.sqrt_nonneg _

theorem norm3_vsmul (s : ℝ) (a : V3) : norm3 (vsmul s a) = |s| * norm3 a := by
  unfold norm3
  rw [lengthSq_vsmul, Real.sqrt_mul (sq_nonneg s), Real.sqrt_sq_eq_abs]

theorem norm3_normalize (a : V3) (h : norm3 a ≠ 0) : norm3 (normalize3 a) = 1 := by
  unfold normalize3
  rw [norm3_vsmul, if_neg h, abs_div, abs_one]
  have hp : 0 < norm3 a := lt_of_le_of_ne (norm3_nonneg a) (Ne.symm h)
  rw [abs_of_pos hp]
  field_simp

theorem norm3_pos_of_lengthSq (a : V3) (h : 0 < lengthSq a) : 0 < norm3 a :=
  Real.sqrt_pos.mpr h

/-- The geometric contract of `fitCameraToObject` for a valid, non-degenerate
box (extent above the 0.01 threshold, positive tangent of the half field of
view): the orbit target becomes the box center, the camera sits at distance
`1.95 * maxDim / (2 tan(fov/2))` from the center, along the previous viewing
direction when it is non-negligible and along the default diagonal otherwise. -/
theorem fit_spec (cam : Camera) (ctl : Controls) (box : BoxR)
    (hdim : maxDimOf box > 0.01)
    (htan : 0 < Real.tan (cam.fov * (Real.pi / 180) / 2)) :
    (fitCameraToObject cam ctl box).target = boxCenter box ∧
    norm3 (vsub (fitCameraToObject cam ctl box).pos (boxCenter box)) =
      1.95 * (maxDimOf box / (2 * Real.tan (cam.fov * (Real.pi / 180) / 2))) ∧
    (lengthSq (vsub cam.pos ctl.target) < 0.01 →
      ∃ t : ℝ, 0 < t ∧
        vsub (fitCameraToObject cam ctl box).pos (boxCenter box) =
          vsmul t ((1 : ℝ), (0.6 : ℝ), (1 : ℝ))) ∧
    (¬ lengthSq (vsub cam.pos ctl.target) < 0.01 →
      ∃ t : ℝ, 0 < t ∧
        vsub (fitCameraToObject cam ctl box).pos (boxCenter box) =
          vsmul t (vsub cam.pos ctl.target)) := by
  have hD : (0 : ℝ) < maxDimOf box := lt_trans (by norm_num) hdim
  have heff : effectiveDimR box = maxDimOf box := if_pos hdim
  have hq : 0 < maxDimOf box / 2 / Real.tan (cam.fov * (Real.pi / 180) / 2) :=
    div_pos (div_pos hD (by norm_num)) htan
  have hZ : cameraZR cam box = maxDimOf box / 2 / Real.tan (cam.fov * (Real.pi / 180) / 2) * 1.3 := by
    unfold cameraZR
    rw [heff, abs_of_pos hq]
  have hZpos : 0 < cameraZR cam box := by
    rw [hZ]
    positivity
  have hop : norm3 (originalPosR cam ctl) ≠ 0 := by
    unfold originalPosR
    by_cases hl : lengthSq (vsub cam.pos ctl.target) < 0.01
    · rw [if_pos hl]
      have : lengthSq ((1 : ℝ), (0.6 : ℝ), (1 : ℝ)) = 2.36 := by
        unfold lengthSq
        norm_num
      apply ne_of_gt
      apply norm3_pos_of_lengthSq
      rw [this]
      norm_num
    · rw [if_neg hl]
      push_neg at hl
      apply ne_of_gt
      apply norm3_pos_of_lengthSq
      linarith
  have hsub : vsub (fitCameraToObject cam ctl box).pos (boxCenter box) =
      vsmul (cameraZR cam box * 1.5) (normalize3 (originalPosR cam ctl)) := by
    unfold fitCameraToObject
    exact vsub_vadd_cancel _ _
  refine ⟨rfl, ?_, ?_, ?_⟩
  · rw [hsub, norm3_vsmul, norm3_normalize _ hop,
      abs_of_pos (by positivity : (0 : ℝ) < cameraZR cam box * 1.5), hZ]
    field_simp
    ring
  · intro hl
    have hopv : originalPosR cam ctl = ((1 : ℝ), (0.6 : ℝ), (1 : ℝ)) := by
      unfold originalPosR
      rw [if_pos hl]
    refine ⟨cameraZR cam box * 1.5 *
      (1 / (if norm3 (originalPosR cam ctl) = 0 then 1 else norm3 (originalPosR cam ctl))), ?_, ?_⟩
    · rw [if_neg hop]
      have hp : 0 < norm3 (originalPosR cam ctl) :=
        lt_of_le_of_ne (norm3_nonneg _) (Ne.symm hop)
      positivity
    · rw [hsub]
      unfold normalize3
      rw [vsmul_vsmul, hopv]
  · intro hl
    have hopv : originalPosR cam ctl = vsub cam.pos ctl.target := by
      unfold originalPosR
      rw [if_neg hl]
    refine ⟨cameraZR cam box * 1.5 *
      (1 / (if norm3 (originalPosR cam ctl) = 0 then 1 else norm3 (originalPosR cam ctl))), ?_, ?_⟩
    · rw [if_neg hop]
      have hp : 0 < norm3 (originalPosR cam ctl) :=
        lt_of_le_of_ne (norm3_nonneg _) (Ne.symm hop)
      positivity
    · rw [hsub]
      unfold normalize3
      rw [vsmul_vsmul, hopv]

end FitR

/-!
## Camera fitting: non-finite tracking model

The same `fitCameraToObject` (three-setup, lines 343-372) with each double
modelled as `Option ℝ`: `some x` is the finite value `x`, `none` is a
non-finite double.  NaN and the infinities are deliberately not distinguished
(every arithmetic operation on a non-finite operand yields a non-finite
result, which is exact for NaN and conservative for the infinities), and
overflow of finite arithmetic is not modelled.  JS comparison with a
non-finite operand is modelled as false, which is exact for NaN; `x || 1`
treats a non-finite length like the falsy NaN.  This is the model in which the
degenerate-box safety property lives: a box with a NaN coordinate (as
`Box3.setFromObject` produces for geometry with non-finite vertex data, since
`Math.min`/`Math.max` propagate NaN and `isEmpty()` is false on a NaN box) has
a `none` component.
-/

namespace FitS

/-- A JS double: a finite real or a non-finite marker. -/
abbrev SVal := Option ℝ

def sAdd : SVal → SVal → SVal
  | some a, some b => some (a + b)
  | _, _ => none

def sSub : SVal → SVal → SVal
  | some a, some b => some (a - b)
  | _, _ => none

def sMul : SVal → SVal → SVal
  | some a, some b => some (a * b)
  | _, _ => none

noncomputable def sDiv : SVal → SVal → SVal
  | some a, some b => if b = 0 then none else some (a / b)
  | _, _ => none

noncomputable def sAbs : SVal → SVal
  | some a => some |a|
  | none => none

noncomputable def sMax : SVal → SVal → SVal
  | some a, some b => some (max a b)
  | _, _ => none

noncomputable def sSqrt : SVal → SVal
  | some a => if a < 0 then none else some (Real.sqrt a)
  | none => none

noncomputable def sTan : SVal → SVal
  | some a => some (Real.tan a)
  | none => none

/-- JS `<` with NaN semantics: false unless both operands are finite and
ordered. -/
def sLt (a b : SVal) : Prop := ∃ x y : ℝ, a = some x ∧ b = some y ∧ x < y

noncomputable instance (a b : SVal) : Decidable (sLt a b) := Classical.propDecidable _

/-- `v || 1` on a length: 0 and NaN are falsy and give 1. -/
noncomputable def orOne (v : SVal) : SVal :=
  if v = some 0 ∨ v = none then some 1 else v

abbrev V3S := SVal × SVal × SVal

def vAddS (a b : V3S) : V3S := (sAdd a.1 b.1, sAdd a.2.1 b.2.1, sAdd a.2.2 b.2.2)

def vSubS (a b : V3S) : V3S := (sSub a.1 b.1, sSub a.2.1 b.2.1, sSub a.2.2 b.2.2)

def vSmulS (s : SVal) (a : V3S) : V3S := (sMul s a.1, sMul s a.2.1, sMul s a.2.2)

/-- `x*x + y*y + z*z`. -/
def lengthSqS (a : V3S) : SVal :=
  sAdd (sAdd (sMul a.1 a.1) (sMul a.2.1 a.2.1)) (sMul a.2.2 a.2.2)

noncomputable def norm3S (a : V3S) : SVal := sSqrt (lengthSqS a)

/-- `normalize()`: divide by `length() || 1`. -/
noncomputable def normalize3S (a : V3S) : V3S :=
  (sDiv a.1 (orOne (norm3S a)), sDiv a.2.1 (orOne (norm3S a)), sDiv a.2.2 (orOne (norm3S a)))

/-- A box: `none` is THREE's canonical empty box; a box built from non-finite
vertex data has `none` components. -/
abbrev BoxS := Option (V3S × V3S)

def boxSizeS : BoxS → V3S
  | none => (some 0, some 0, some 0)
  | some (mn, mx) => vSubS mx mn

noncomputable def boxCenterS : BoxS → V3S
  | none => (some 0, some 0, some 0)
  | some (mn, mx) => vSmulS (some (0.5 : ℝ)) (vAddS mn mx)

noncomputable def maxDimS (box : BoxS) : SVal :=
  sMax (boxSizeS box).1 (sMax (boxSizeS box).2.1 (boxSizeS box).2.2)

/-- `maxDim > 0.01 ? maxDim : SAFE_DIM` (lines 353-354). -/
noncomputable def effectiveDimS (box : BoxS) : SVal :=
  if sLt (some (0.01 : ℝ)) (maxDimS box) then maxDimS box else some (200 : ℝ)

structure CameraS where
  pos : V3S
  fov : SVal

structure ControlsS where
  target : V3S

structure FitOutS where
  pos : V3S
  target : V3S

/-- `cameraZ = |effectiveDim / 2 / tan(fov * (PI/180) / 2)| * 1.3`. -/
noncomputable def cameraZS (cam : CameraS) (box : BoxS) : SVal :=
  sMul (sAbs (sDiv (sDiv (effectiveDimS box) (some (2 : ℝ)))
    (sTan (sDiv (sMul cam.fov (some (Real.pi / 180))) (some (2 : ℝ)))))) (some (1.3 : ℝ))

/-- `originalPos` with the default diagonal for a negligible previous
direction. -/
noncomputable def originalPosS (cam : CameraS) (ctl : ControlsS) : V3S :=
  if sLt (lengthSqS (vSubS cam.pos ctl.target)) (some (0.01 : ℝ)) then
    (some (1 : ℝ), some (0.6 : ℝ), some (1 : ℝ))
  else vSubS cam.pos ctl.target

/-- `fitCameraToObject` over the non-finite-tracking doubles. -/
noncomputable def fitCameraToObjectS (cam : CameraS) (ctl : ControlsS) (box : BoxS) : FitOutS :=
  ⟨vAddS (boxCenterS box)
    (vSmulS (sMul (cameraZS cam box) (some (1.5 : ℝ))) (normalize3S (originalPosS cam ctl))),
   boxCenterS box⟩

/-- Finiteness of a modelled double. -/
def IsFin (v : SVal) : Prop := ∃ x : ℝ, v = some x

def IsFinV (a : V3S) : Prop := IsFin a.1 ∧ IsFin a.2.1 ∧ IsFin a.2.2

@[simp] theorem sAdd_none_left (b : SVal) : sAdd none b = none := by
  cases b <;> rfl

@[simp] theorem sAdd_none_right (a : SVal) : sAdd a none = none := by
  cases a <;> rfl

@[simp] theorem sMul_none_left (b : SVal) : sMul none b = none := by
  cases b <;> rfl

@[simp] theorem sMul_none_right (a : SVal) : sMul a none = none := by
  cases a <;> rfl

@[simp] theorem sSub_none_left (b : SVal) : sSub none b = none := by
  cases b <;> rfl

@[simp] theorem sSub_none_right (a : SVal) : sSub a none = none := by
  cases a <;> rfl

theorem sAdd_fin {a b : SVal} (ha : IsFin a) (hb : IsFin b) : IsFin (sAdd a b) := by
  rcases ha with ⟨x, hx⟩
  rcases hb with ⟨y, hy⟩
  exact ⟨x + y, by rw [hx, hy]; rfl⟩

theorem sSub_fin {a b : SVal} (ha : IsFin a) (hb : IsFin b) : IsFin (sSub a b) := by
  rcases ha with ⟨x, hx⟩
  rcases hb with ⟨y, hy⟩
  exact ⟨x - y, by rw [hx, hy]; rfl⟩

theorem sMul_fin {a b : SVal} (ha : IsFin a) (hb : IsFin b) : IsFin (sMul a b) := by
  rcases ha with ⟨x, hx⟩
  rcases hb with ⟨y, hy⟩
  exact ⟨x * y, by rw [hx, hy]; rfl⟩

theorem sAbs_fin {a : SVal} (ha : IsFin a) : IsFin (sAbs a) := by
  rcases ha with ⟨x, hx⟩
  exact ⟨|x|, by rw [hx]; rfl⟩

theorem sDiv_some (a b : ℝ) : sDiv (some a) (some b) = if b = 0 then none else some (a / b) := rfl

theorem sSqrt_some (a : ℝ) : sSqrt (some a) = if a < 0 then none else some (Real.sqrt a) := rfl

theorem sDiv_fin {a : SVal} {b : ℝ} (ha : IsFin a) (hb : b ≠ 0) :
    IsFin (sDiv a (some b)) := by
  rcases ha with ⟨x, hx⟩
  refine ⟨x / b, ?_⟩
  rw [hx, sDiv_some, if_neg hb]

theorem sSqrt_fin {x : ℝ} (hx : 0 ≤ x) : IsFin (sSqrt (some x)) := by
  refine ⟨Real.sqrt x, ?_⟩
  rw [sSqrt_some, if_neg (not_lt.mpr hx)]

theorem vSubS_fin {a b : V3S} (ha : IsFinV a) (hb : IsFinV b) : IsFinV (vSubS a b) :=
  ⟨sSub_fin ha.1 hb.1, sSub_fin ha.2.1 hb.2.1, sSub_fin ha.2.2 hb.2.2⟩

theorem vAddS_fin {a b : V3S} (ha : IsFinV a) (hb : IsFinV b) : IsFinV (vAddS a b) :=
  ⟨sAdd_fin ha.1 hb.1, sAdd_fin ha.2.1 hb.2.1, sAdd_fin ha.2.2 hb.2.2⟩

theorem vSmulS_fin {s : SVal} {a : V3S} (hs : IsFin s) (ha : IsFinV a) :
    IsFinV (vSmulS s a) :=
  ⟨sMul_fin hs ha.1, sMul_fin hs ha.2.1, sMul_fin hs ha.2.2⟩

theorem lengthSqS_fin {a : V3S} (ha : IsFinV a) :
    ∃ x : ℝ, lengthSqS a = some x ∧ 0 ≤ x := by
  rcases ha with ⟨⟨x, hx⟩, ⟨y, hy⟩, ⟨z, hz⟩⟩
  refine ⟨x * x + y * y + z * z, ?_, ?_⟩
  · unfold lengthSqS
    rw [hx, hy, hz]
    rfl
  · exact add_nonneg (add_nonneg (mul_self_nonneg _) (mul_self_nonneg _)) (mul_self_nonneg _)

theorem orOne_spec (v : SVal) : ∃ y : ℝ, orOne v = some y ∧ y ≠ 0 := by
  unfold orOne
  by_cases h : v = some 0 ∨ v = none
  · rw [if_pos h]
    exact ⟨1, rfl, one_ne_zero⟩
  · rw [if_neg h]
    push_neg at h
    cases v with
    | none => exact absurd rfl h.2
    | some x =>
      refine ⟨x, rfl, ?_⟩
      intro hx
      exact h.1 (by rw [hx])

theorem normalize3S_fin {a : V3S} (ha : IsFinV a) : IsFinV (normalize3S a) := by
  rcases orOne_spec (norm3S a) with ⟨y, hy, hyne⟩
  unfold normalize3S
  rw [hy]
  exact ⟨sDiv_fin ha.1 hyne, sDiv_fin ha.2.1 hyne, sDiv_fin ha.2.2 hyne⟩

theorem boxCenterS_fin {box : BoxS}
    (h : box = none ∨ ∃ mn mx, box = some (mn, mx) ∧ IsFinV mn ∧ IsFinV mx) :
    IsFinV (boxCenterS box) := by
  rcases h with h | ⟨mn, mx, h, hmn, hmx⟩
  · rw [h]
    exact ⟨⟨0, rfl⟩, ⟨0, rfl⟩, ⟨0, rfl⟩⟩
  · rw [h]
    unfold boxCenterS
    exact vSmulS_fin ⟨0.5, rfl⟩ (vAddS_fin hmn hmx)

theorem originalPosS_fin {cam : CameraS} {ctl : ControlsS}
    (hpos : IsFinV cam.pos) (htgt : IsFinV ctl.target) :
    IsFinV (originalPosS cam ctl) := by
  unfold originalPosS
  by_cases h : sLt (lengthSqS (vSubS cam.pos ctl.target)) (some (0.01 : ℝ))
  · rw [if_pos h]
    exact ⟨⟨1, rfl⟩, ⟨0.6, rfl⟩, ⟨1, rfl⟩⟩
  · rw [if_neg h]
    exact vSubS_fin hpos htgt

theorem cameraZS_fin {cam : CameraS} {box : BoxS} {f : ℝ}
    (hfov : cam.fov = some f) (htan : Real.tan (f * (Real.pi / 180) / 2) ≠ 0)
    (heff : effectiveDimS box = some (200 : ℝ)) :
    IsFin (cameraZS cam box) := by
  unfold cameraZS
  rw [heff, hfov]
  have h1 : sMul (some f) (some (Real.pi / 180)) = some (f * (Real.pi / 180)) := rfl
  rw [h1]
  have h2 : sDiv (some (f * (Real.pi / 180))) (some (2 : ℝ)) =
      some (f * (Real.pi / 180) / 2) := by
    rw [sDiv_some, if_neg (by norm_num : (2 : ℝ) ≠ 0)]
  rw [h2]
  have h3 : sTan (some (f * (Real.pi / 180) / 2)) = some (Real.tan (f * (Real.pi / 180) / 2)) := rfl
  rw [h3]
  have h4 : sDiv (some (200 : ℝ)) (some (2 : ℝ)) = some ((200 : ℝ) / 2) := by
    rw [sDiv_some, if_neg (by norm_num : (2 : ℝ) ≠ 0)]
  rw [h4]
  exact sMul_fin (sAbs_fin (sDiv_fin ⟨(200 : ℝ) / 2, rfl⟩ htan)) ⟨1.3, rfl⟩

/-- Safety of `fitCameraToObject` on degenerate boxes, as far as it actually
holds: when the box is empty or has all-finite coordinates and its largest
extent does not exceed the 0.01 threshold (all-zero extent and single-point
boxes included), the safe extent 200 is substituted and - given finite camera
and controls state and a nonzero tangent of the half field of view - the
resulting camera position and orbit target are finite. -/
theorem fitS_safe (cam : CameraS) (ctl : ControlsS) (box : BoxS)
    (hbox : box = none ∨ ∃ mn mx, box = some (mn, mx) ∧ IsFinV mn ∧ IsFinV mx)
    (hdeg : ¬ sLt (some (0.01 : ℝ)) (maxDimS box))
    (hpos : IsFinV cam.pos) (htgt : IsFinV ctl.target)
    (hfov : ∃ f : ℝ, cam.fov = some f ∧ Real.tan (f * (Real.pi / 180) / 2) ≠ 0) :
    effectiveDimS box = some (200 : ℝ) ∧
    IsFinV (fitCameraToObjectS cam ctl box).pos ∧
    IsFinV (fitCameraToObjectS cam ctl box).target := by
  have heff : effectiveDimS box = some (200 : ℝ) := by
    unfold effectiveDimS
    rw [if_neg hdeg]
  rcases hfov with ⟨f, hf, htan⟩
  have hcen := boxCenterS_fin hbox
  refine ⟨heff, ?_, hcen⟩
  unfold fitCameraToObjectS
  apply vAddS_fin hcen
  apply vSmulS_fin
  · exact sMul_fin (cameraZS_fin hf htan heff) ⟨1.5, rfl⟩
  · exact normalize3S_fin (originalPosS_fin hpos htgt)

end FitS

/-!
## The View3D component's load lifecycle

Each run of the setup effect (view-3d, lines 91-278) creates its OWN scene,
interaction state (`interactive`), raf loop and `addedObject` variable, and
starts one `load()`; the cleanup cancels the raf, disposes the session's own
objects and nulls `sceneRef.current`.  The pending `load()` promise is NOT
cancelled: when it resolves it runs its body against the `interactive` and
`addedObject` captured by ITS OWN effect run, plus the component-level React
state (`isModelLoaded`, `loadProgress`, `isLoadingPart`) and the
`onModelLoaded` callback.  `Session g` is the closure state of effect run `g`;
`sceneRef` names the session every handler (clicks, highlightPartByName, the
selectedPartName effect) operates on - the "live scene".
-/

/-- Closure state of one effect run: the THREE.Scene contents (object ids),
`interactive.mesh`, `interactive.originalMaterials`, the clone counter, the
`addedObject` variable, disposed objects, the last fit target and whether the
raf loop is scheduled. -/
structure Session where
  sceneObjs : List Nat
  mesh : Option Nat
  store : Store
  ctr : Nat
  addedObject : Option Nat
  disposed : List Nat
  framedTo : Option Nat
  rafActive : Bool

def Session.fresh : Session := ⟨[], none, [], 0, none, [], none, true⟩

/-- Component state: the per-effect sessions, which effect run `sceneRef`
points at, and the component-level React state the load body also touches. -/
structure ViewState where
  gens : Nat
  sessions : Nat → Session
  sceneRef : Option Nat
  currentSelectedPart : Option JStr
  isModelLoaded : Bool
  loadProgress : Nat
  isLoadingPart : Bool
  lastModelLoaded : Option Nat

/-- A new effect run (view-3d, lines 91-162, 241): fresh session, sceneRef set
to it, `setIsLoadingPart(true)`, `setLoadProgress(0)`, and its `load()` issued. -/
def effectRun (st : ViewState) : ViewState :=
  { st with
    gens := st.gens + 1,
    sessions := fun k => if k = st.gens then Session.fresh else st.sessions k,
    sceneRef := some st.gens,
    isLoadingPart := true,
    loadProgress := 0 }

/-- The body of `load()` once the awaited `loadGLB` resolves (view-3d, lines
168-231), on the session it closed over: normalize (position only, not tracked
here), collect materials into the session's store, remove/dispose a previously
added object, then add, set `interactive.mesh`, remember `addedObject` and fit
the camera. -/
def loadBody (s : Session) (obj : Nat) (ms : List MeshRec) : Session :=
  let r := collectOriginalMaterials ms s.store s.ctr
  let s1 : Session := { s with store := r.1, ctr := r.2 }
  let s2 : Session :=
    match s1.addedObject with
    | some a =>
      { s1 with sceneObjs := s1.sceneObjs.erase a, disposed := s1.disposed ++ [a] }
    | none => s1
  { s2 with
    sceneObjs := s2.sceneObjs ++ [obj]
    mesh := some obj
    addedObject := some obj
    framedTo := some obj }

/-- Resolution of the pending load of effect run `g` with loaded model `obj`
(meshes `ms`): the session `g` it closed over is updated, and the
component-level `setIsModelLoaded(true)`, `onModelLoaded(obj)` and the
`finally` clause's `setIsLoadingPart(false)` fire.  No other session is read
or written. -/
def resolveLoad (st : ViewState) (g : Nat) (obj : Nat) (ms : List MeshRec) : ViewState :=
  { st with
    sessions := fun k => if k = g then loadBody (st.sessions g) obj ms else st.sessions k,
    isModelLoaded := true,
    lastModelLoaded := some obj,
    isLoadingPart := false }

/-- The effect cleanup (view-3d, lines 244-276) of effect run `g`: cancel the
raf, dispose the session's added object, clear its store, null `sceneRef`. -/
def cleanupRun (st : ViewState) (g : Nat) : ViewState :=
  let s0 := st.sessions g
  let s1 : Session := { s0 with rafActive := false }
  let s2 : Session :=
    match s1.addedObject with
    | some a =>
      { s1 with
        sceneObjs := s1.sceneObjs.erase a
        disposed := s1.disposed ++ [a]
        mesh := none
        addedObject := none }
    | none => s1
  { st with
    sessions := fun k => if k = g then { s2 with store := [] } else st.sessions k,
    sceneRef := none }

/-!
## The claims
-/

/-- C1: a load that resolves for a superseded effect run (its generation `g` is
not the one `sceneRef` points at, because the model URL or the isolated part
changed, or the component was torn down) only mutates its own closed-over
session and the component-level loading flags; the live session's scene
contents, mesh, snapshot store (all inside `sessions l`) and the selection are
untouched, so only the newest load's result is ever attached to the live
scene. -/
theorem c1_stale_load_no_effect (st : ViewState) (g obj : Nat) (ms : List MeshRec) (l : Nat)
    (hlive : st.sceneRef = some l) (hstale : g ≠ l) :
    (resolveLoad st g obj ms).sessions l = st.sessions l ∧
    (resolveLoad st g obj ms).sceneRef = st.sceneRef ∧
    (resolveLoad st g obj ms).currentSelectedPart = st.currentSelectedPart := by
  refine ⟨?_, rfl, rfl⟩
  show (if l = g then loadBody (st.sessions g) obj ms else st.sessions l) = st.sessions l
  rw [if_neg (fun h => hstale h.symm)]

/-- Component state after two effect runs with the first run's load still
pending: session 1 is live, session 0's load is stale. -/
def c1exSt : ViewState :=
  ⟨2, fun _ => Session.fresh, some 1, none, false, 0, true, none⟩

theorem c1_stale_load_no_effect_witness :
    (resolveLoad c1exSt 0 5 []).sessions 1 = c1exSt.sessions 1 ∧
    (resolveLoad c1exSt 0 5 []).sceneRef = c1exSt.sceneRef ∧
    (resolveLoad c1exSt 0 5 []).currentSelectedPart = c1exSt.currentSelectedPart :=
  c1_stale_load_no_effect c1exSt 0 5 [] 1 rfl (by decide)

/-- C2: starting from a freshly loaded well-formed model whose snapshot store
is populated by the load-time capture, after ANY finite sequence of highlight
operations (each one a reset + whole-model re-capture + subtree highlight, as
every call site performs it; an empty target list is a plain reset) one
`resetModelColor` gives every recorded mesh exactly the visual material
parameters it had before any highlight, and the materials it assigns are fresh
clones: their object identities differ from every identity recorded in the
store, so the stored reference itself is never handed back. -/
theorem c2_highlight_reset_roundtrip (ms0 : List MeshRec) (c0 : Nat) (ops : List (List Nat))
    (hwf : WFmodel ms0) (j : Nat)
    (hj : (Store.get (runOps ms0 c0 ops).2.1 j).isSome = true) :
    liveVals (resetModelColor (runOps ms0 c0 ops).2.1 (runOps ms0 c0 ops).1
        (runOps ms0 c0 ops).2.2).1 j = liveVals ms0 j ∧
      ∀ x ∈ liveMids (resetModelColor (runOps ms0 c0 ops).2.1 (runOps ms0 c0 ops).1
        (runOps ms0 c0 ops).2.2).1 j,
        ∀ y ∈ storeMids (runOps ms0 c0 ops).2.1 j, x ≠ y :=
  highlight_reset_main ms0 c0 ops hwf j hj

/-- A one-mesh model for the roundtrip witness. -/
def c2ms : List MeshRec := [⟨1, true, some (.one ⟨0, 5⟩)⟩]

theorem c2_highlight_reset_roundtrip_witness :
    liveVals (resetModelColor (runOps c2ms 10 [[1]]).2.1 (runOps c2ms 10 [[1]]).1
        (runOps c2ms 10 [[1]]).2.2).1 1 = liveVals c2ms 1 ∧
      ∀ x ∈ liveMids (resetModelColor (runOps c2ms 10 [[1]]).2.1 (runOps c2ms 10 [[1]]).1
        (runOps c2ms 10 [[1]]).2.2).1 1,
        ∀ y ∈ storeMids (runOps c2ms 10 [[1]]).2.1 1, x ≠ y :=
  c2_highlight_reset_roundtrip c2ms 10 [[1]] (by unfold WFmodel; decide) 1 (by decide)

/-- Two sibling meshes whose names share the PartIdentity "bracket". -/
def c3A : Node := .mk 1 (lit ("bracket-01")) true (some 100) (some (.one ⟨200, 7⟩)) (0, 0, 0) []

def c3B : Node := .mk 2 (lit ("bracket-02")) true (some 101) (some (.one ⟨201, 8⟩)) (1, 0, 0) []

def c3Model : Node := .mk 0 ([] : JStr) false none none (0, 0, 0) [c3A, c3B]

def c3Box : Node → BoxQ := fun _ => none

/-- C3 counterexample: the first node (in traversal order) whose PartIdentity
is "bracket" is "bracket-01", but `extractPartByName` returns a clone of
"bracket-02" - the traverse cannot be stopped, so the LAST match overwrites
the first. -/
theorem c3_first_match_cex :
    (extractMatches c3Model (lit ("bracket"))).head?.map Node.name =
      some (lit ("bracket-01")) ∧
    ((extractPartByName c3Model (lit ("bracket")) c3Box 1000).1.map Node.name =
      some (lit ("bracket-02"))) := by
  constructor
  · decide
  · decide

/-- C3 (amended): `extractPartByName` returns `none` exactly when no named node
matches the requested PartIdentity; otherwise it returns a deep clone of the
LAST matching node in traversal order, with name preserved, position
normalized against the clone's bounding box, and with every geometry and
material identity freshly allocated - so the returned subtree shares no
geometry or material object with the source model. -/
theorem c3_extract_last_clone (model : Node) (p : JStr) (objBox : Node → BoxQ) (c : Nat)
    (hwf : WFtree model) (hbelow : ∀ y ∈ resList model, y < c) :
    ((extractPartByName model p objBox c).1 = none ↔ extractMatches model p = []) ∧
    (∀ lm, (extractMatches model p).getLast? = some lm →
      ∃ r c2, c ≤ c2 ∧
        (extractPartByName model p objBox c).1 = some r ∧
        r = (refreshNode lm c2).1.withPos
          (normalizeModelSizeAndPosition (objBox (refreshNode lm c2).1)
            (refreshNode lm c2).1.pos 0) ∧
        r.name = lm.name ∧
        ∀ y ∈ resList r, y ∉ resList model) := by
  constructor
  · constructor
    · intro hn
      by_contra hne
      rcases List.getLast?_isSome.mpr hne |> Option.isSome_iff_exists.mp with ⟨lm, hlm⟩
      rcases extract_of_getLast model p objBox c lm hlm with ⟨c2, _, heq⟩
      rw [heq] at hn
      exact Option.noConfusion hn
    · intro hnil
      rw [extract_of_matches_nil model p objBox c hnil]
  · intro lm hlm
    rcases extract_of_getLast model p objBox c lm hlm with ⟨c2, hc2, heq⟩
    have hmem : lm ∈ preorder model := by
      rcases List.mem_getLast?_eq_getLast hlm with ⟨hne, hx⟩
      exact extractMatches_mem (hx ▸ List.getLast_mem hne)
    have hwf2 : ∀ x ∈ preorder lm, x.isMesh = false → x.geom = none ∧ x.mat = none := by
      intro x hx
      exact hwf x (preorder_trans model lm hmem x hx)
    refine ⟨(refreshNode lm c2).1.withPos
      (normalizeModelSizeAndPosition (objBox (refreshNode lm c2).1)
        (refreshNode lm c2).1.pos 0), c2, hc2, by rw [heq], rfl, ?_, ?_⟩
    · rw [name_withPos, refreshNode_name]
    · intro y hy hmem2
      rw [resList_withPos] at hy
      have hge := (refreshNode_res_bounds lm c2 hwf2 y hy).1
      have hlt := hbelow y hmem2
      omega

def c3wBox : Node → BoxQ := fun _ => none

theorem c3_extract_last_clone_witness :
    ((extractPartByName c3Model (lit ("bracket")) c3wBox 1000).1 = none ↔
      extractMatches c3Model (lit ("bracket")) = []) ∧
    (∀ lm, (extractMatches c3Model (lit ("bracket"))).getLast? = some lm →
      ∃ r c2, 1000 ≤ c2 ∧
        (extractPartByName c3Model (lit ("bracket")) c3wBox 1000).1 = some r ∧
        r = (refreshNode lm c2).1.withPos
          (normalizeModelSizeAndPosition (c3wBox (refreshNode lm c2).1)
            (refreshNode lm c2).1.pos 0) ∧
        r.name = lm.name ∧
        ∀ y ∈ resList r, y ∉ resList c3Model) :=
  c3_extract_last_clone c3Model (lit ("bracket")) c3wBox 1000 (by unfold WFtree; decide)
    (by decide)

/-- C4 counterexample: on the node name "Bracket-01" the click-selection
derivation (`handleClick`) computes "Bracket" - trimmed but NOT lower-cased -
while the extraction derivation computes "bracket"; the call sites do not all
compute the same key. -/
theorem c4_derivation_mismatch_cex :
    clickPartName (lit ("Bracket-01")) ≠ cleanExtract (lit ("Bracket-01")) ∧
    clickPartName (lit ("Bracket-01")) = lit ("Bracket") ∧
    cleanExtract (lit ("Bracket-01")) = lit ("bracket") := by
  refine ⟨by decide, by decide, by decide⟩

/-- C4 (amended): the two three-setup derivations (`extractPartByName` and
`getTopLevelNodes`) compute the same key - the substring before the first dash,
lower-cased and trimmed - and are case-insensitive, so "Bracket-01" and
"bracket-02" both resolve to "bracket";
`findNodeByBaseName` lower-cases but does not trim (still case-insensitive),
and `handleClick` trims but does NOT lower-case, so the click-derived key is
the lower-cased key only up to case. -/
theorem c4_derivations (name : JStr) :
    cleanExtract name = cleanTopLevel name ∧
    cleanExtract (jsToLower name) = cleanExtract name ∧
    baseNameView (jsToLower name) = baseNameView name ∧
    cleanExtract name = jsToLower (clickPartName name) ∧
    baseNameView name = jsToLower (splitHead name) ∧
    cleanExtract (lit ("Bracket-01")) = lit ("bracket") ∧
    cleanExtract (lit ("bracket-02")) = lit ("bracket") := by
  refine ⟨cleanExtract_eq_cleanTopLevel name, cleanExtract_case_insensitive name, ?_, ?_, rfl,
    by decide, by decide⟩
  · unfold baseNameView
    rw [splitHead_jsToLower, jsToLower_idem]
  · unfold cleanExtract clickPartName
    rw [jsTrim_jsToLower]

/-- C5 counterexample: a mesh (identity 1) is already recorded in the store
with original material parameters 3, but its live material now has parameters
7; a repeated capture call does NOT leave the recorded snapshot unchanged - it
overwrites the entry with a clone of the live material. -/
theorem c5_capture_overwrites_cex :
    Store.get (collectOriginalMaterials [⟨1, true, some (.one ⟨10, 7⟩)⟩]
      [(1, Mats.one ⟨5, 3⟩)] 20).1 1 ≠ some (Mats.one ⟨5, 3⟩) := by
  decide

/-- C5 (amended): `collectOriginalMaterials` does not check for presence: for
every mesh with a material it overwrites the store entry with a fresh clone of
the CURRENT live material, and leaves other entries alone.  A repeated capture
therefore preserves a recorded snapshot's visual parameters only when the live
material still carries them (which the call sites arrange by resetting first);
it never preserves the stored object itself. -/
theorem c5_capture_characterization (ms : List MeshRec) (st : Store) (c : Nat)
    (h : (idsOf ms).Nodup) (j : Nat) :
    storeVals (collectOriginalMaterials ms st c).1 j =
      if collectible ms j then liveVals ms j else storeVals st j :=
  collect_get ms st c h j

theorem c5_capture_characterization_witness :
    storeVals (collectOriginalMaterials [⟨1, true, some (.one ⟨10, 7⟩)⟩]
        [(1, Mats.one ⟨5, 3⟩)] 20).1 1 =
      if collectible [⟨1, true, some (.one ⟨10, 7⟩)⟩] 1
      then liveVals [⟨1, true, some (.one ⟨10, 7⟩)⟩] 1
      else storeVals [(1, Mats.one ⟨5, 3⟩)] 1 :=
  c5_capture_characterization [⟨1, true, some (.one ⟨10, 7⟩)⟩] [(1, Mats.one ⟨5, 3⟩)] 20
    (by decide) 1

/-- A box whose min corner has a non-finite x component (as produced by
`setFromObject` over NaN vertex data): the extent is non-finite, so the
extent comparison is false and the safe extent IS substituted - yet the
unguarded center goes through `(min + max) * 0.5` and poisons the camera
position. -/
def c6BoxNaN : FitS.BoxS := some (((none : FitS.SVal), some 0, some 0), (some 1, some 1, some 1))

def c6CamNaN : FitS.CameraS := ⟨(some 200, some 150, some 200), some 45⟩

def c6CtlNaN : FitS.ControlsS := ⟨(some 0, some 0, some 0)⟩

/-- C6 counterexample: on a numerically invalid box the safe extent 200 is
substituted (the spec's first half holds), but the camera position's x
coordinate is non-finite: the box CENTER is used unguarded, so a NaN box still
produces a NaN camera position. -/
theorem c6_nan_box_cex :
    FitS.effectiveDimS c6BoxNaN = some (200 : ℝ) ∧
    (FitS.fitCameraToObjectS c6CamNaN c6CtlNaN c6BoxNaN).pos.1 = none := by
  have hmax : FitS.maxDimS c6BoxNaN = none := rfl
  constructor
  · have hns : ¬ FitS.sLt (some (0.01 : ℝ)) (FitS.maxDimS c6BoxNaN) := by
      rintro ⟨x, y, hx, hy, hlt⟩
      rw [hmax] at hy
      exact Option.noConfusion hy
    unfold FitS.effectiveDimS
    rw [if_neg hns]
  · have h1 : (FitS.fitCameraToObjectS c6CamNaN c6CtlNaN c6BoxNaN).pos.1 =
        FitS.sAdd (FitS.boxCenterS c6BoxNaN).1
          ((FitS.vSmulS (FitS.sMul (FitS.cameraZS c6CamNaN c6BoxNaN) (some (1.5 : ℝ)))
            (FitS.normalize3S (FitS.originalPosS c6CamNaN c6CtlNaN))).1) := rfl
    have h2 : (FitS.boxCenterS c6BoxNaN).1 = none := rfl
    rw [h1, h2, FitS.sAdd_none_left]

/-- C6 (amended): over doubles with non-finiteness tracked (`none` = NaN or
infinity), when the box is empty or all-finite and its largest extent does not
exceed the 0.01 threshold (all-zero extent and single-point boxes included),
`fitCameraToObject` substitutes the fixed safe extent 200 and - for finite
camera/controls state and a nonzero tangent of the half field of view -
produces a finite camera position and orbit target.  (The unrestricted claim
is false: a numerically invalid box passes its non-finite CENTER through
unguarded, see the counterexample.) -/
theorem c6_degenerate_box_safe (cam : FitS.CameraS) (ctl : FitS.ControlsS) (box : FitS.BoxS)
    (hbox : box = none ∨ ∃ mn mx, box = some (mn, mx) ∧ FitS.IsFinV mn ∧ FitS.IsFinV mx)
    (hdeg : ¬ FitS.sLt (some (0.01 : ℝ)) (FitS.maxDimS box))
    (hpos : FitS.IsFinV cam.pos) (htgt : FitS.IsFinV ctl.target)
    (hfov : ∃ f : ℝ, cam.fov = some f ∧ Real.tan (f * (Real.pi / 180) / 2) ≠ 0) :
    FitS.effectiveDimS box = some (200 : ℝ) ∧
    FitS.IsFinV (FitS.fitCameraToObjectS cam ctl box).pos ∧
    FitS.IsFinV (FitS.fitCameraToObjectS cam ctl box).target :=
  FitS.fitS_safe cam ctl box hbox hdeg hpos htgt hfov

def c6wCam : FitS.CameraS := ⟨(some 1, some 2, some 3), some 45⟩

def c6wCtl : FitS.ControlsS := ⟨(some 0, some 0, some 0)⟩

theorem c6_degenerate_box_safe_witness :
    FitS.effectiveDimS none = some (200 : ℝ) ∧
    FitS.IsFinV (FitS.fitCameraToObjectS c6wCam c6wCtl none).pos ∧
    FitS.IsFinV (FitS.fitCameraToObjectS c6wCam c6wCtl none).target :=
  c6_degenerate_box_safe c6wCam c6wCtl none (Or.inl rfl)
    (by
      rintro ⟨x, y, hx, hy, hlt⟩
      have hm : FitS.maxDimS none = some (max (0 : ℝ) (max 0 0)) := rfl
      rw [hm] at hy
      injection hx with hx2
      injection hy with hy2
      rw [← hx2, ← hy2] at hlt
      simp only [max_self] at hlt
      norm_num at hlt)
    ⟨⟨1, rfl⟩, ⟨2, rfl⟩, ⟨3, rfl⟩⟩ ⟨⟨0, rfl⟩, ⟨0, rfl⟩, ⟨0, rfl⟩⟩
    ⟨45, rfl, by
      have h1 : (0 : ℝ) < 45 * (Real.pi / 180) / 2 := by positivity
      have h2 : (45 : ℝ) * (Real.pi / 180) / 2 < Real.pi / 2 := by nlinarith [Real.pi_pos]
      exact ne_of_gt (Real.tan_pos_of_pos_of_lt_pi_div_two h1 h2)⟩

/-- C7: for a valid non-degenerate box (largest extent above the 0.01
threshold) and a positive tangent of the half field of view, the orbit target
becomes the box center; the camera's distance from the center is
`1.95 * maxDim / (2 * tan(fov/2))` - the largest extent over twice the tangent
of half the vertical field of view, scaled by the constant margin multiplier
1.95 = 1.3 * 1.5 > 1; and the camera lies along the previous viewing direction
(`camera.position - controls.target`) when its squared length is
non-negligible (≥ 0.01), else along the fixed default diagonal (1, 0.6, 1). -/
theorem c7_camera_framing (cam : FitR.Camera) (ctl : FitR.Controls) (box : FitR.BoxR)
    (hdim : FitR.maxDimOf box > 0.01)
    (htan : 0 < Real.tan (cam.fov * (Real.pi / 180) / 2)) :
    (FitR.fitCameraToObject cam ctl box).target = FitR.boxCenter box ∧
    FitR.norm3 (FitR.vsub (FitR.fitCameraToObject cam ctl box).pos (FitR.boxCenter box)) =
      1.95 * (FitR.maxDimOf box / (2 * Real.tan (cam.fov * (Real.pi / 180) / 2))) ∧
    (FitR.lengthSq (FitR.vsub cam.pos ctl.target) < 0.01 →
      ∃ t : ℝ, 0 < t ∧
        FitR.vsub (FitR.fitCameraToObject cam ctl box).pos (FitR.boxCenter box) =
          FitR.vsmul t ((1 : ℝ), (0.6 : ℝ), (1 : ℝ))) ∧
    (¬ FitR.lengthSq (FitR.vsub cam.pos ctl.target) < 0.01 →
      ∃ t : ℝ, 0 < t ∧
        FitR.vsub (FitR.fitCameraToObject cam ctl box).pos (FitR.boxCenter box) =
          FitR.vsmul t (FitR.vsub cam.pos ctl.target)) :=
  FitR.fit_spec cam ctl box hdim htan

def c7Cam : FitR.Camera := ⟨((200 : ℝ), (150 : ℝ), (200 : ℝ)), (45 : ℝ)⟩

def c7Ctl : FitR.Controls := ⟨((0 : ℝ), (0 : ℝ), (0 : ℝ))⟩

def c7Box : FitR.BoxR := some (((0 : ℝ), (0 : ℝ), (0 : ℝ)), ((10 : ℝ), (10 : ℝ), (10 : ℝ)))

theorem c7_camera_framing_witness :
    (FitR.fitCameraToObject c7Cam c7Ctl c7Box).target = FitR.boxCenter c7Box ∧
    FitR.norm3 (FitR.vsub (FitR.fitCameraToObject c7Cam c7Ctl c7Box).pos
        (FitR.boxCenter c7Box)) =
      1.95 * (FitR.maxDimOf c7Box / (2 * Real.tan (c7Cam.fov * (Real.pi / 180) / 2))) ∧
    (FitR.lengthSq (FitR.vsub c7Cam.pos c7Ctl.target) < 0.01 →
      ∃ t : ℝ, 0 < t ∧
        FitR.vsub (FitR.fitCameraToObject c7Cam c7Ctl c7Box).pos (FitR.boxCenter c7Box) =
          FitR.vsmul t ((1 : ℝ), (0.6 : ℝ), (1 : ℝ))) ∧
    (¬ FitR.lengthSq (FitR.vsub c7Cam.pos c7Ctl.target) < 0.01 →
      ∃ t : ℝ, 0 < t ∧
        FitR.vsub (FitR.fitCameraToObject c7Cam c7Ctl c7Box).pos (FitR.boxCenter c7Box) =
          FitR.vsmul t (FitR.vsub c7Cam.pos c7Ctl.target)) :=
  c7_camera_framing c7Cam c7Ctl c7Box
    (by
      have h10 : FitR.maxDimOf c7Box = 10 := by
        show max ((10 : ℝ) - 0) (max ((10 : ℝ) - 0) ((10 : ℝ) - 0)) = 10
        norm_num
      rw [h10]
      norm_num)
    (by
      show (0 : ℝ) < Real.tan ((45 : ℝ) * (Real.pi / 180) / 2)
      have h1 : (0 : ℝ) < 45 * (Real.pi / 180) / 2 := by positivity
      have h2 : (45 : ℝ) * (Real.pi / 180) / 2 < Real.pi / 2 := by nlinarith [Real.pi_pos]
      exact Real.tan_pos_of_pos_of_lt_pi_div_two h1 h2)

/-- C8: on a session with an attached model (`interactive.mesh` set) and
thumbnail mode off, a click whose ray hits nothing, or whose hit climbs up to
the attached model root itself, clears the selection: `currentSelectedPart`
becomes none, `onPartSelected` is invoked with none, the live materials are
restored from the stored originals (one `resetModelColor`, no re-capture and
no highlight), and no camera re-framing happens. -/
theorem c8_miss_click_clears (cs : ClickSession) (rect : RectD) (cx cy : ℚ)
    (cast : ℚ × ℚ → Nat → List Nat) (cur : Option JStr) (m : Nat)
    (hm : cs.meshId = some m)
    (hcase : getIntersects cx cy rect (some m) cast = none ∨
      ∃ hit, getIntersects cx cy rect (some m) cast = some hit ∧
        climb cs.sceneTree m (nodeCount cs.sceneTree) hit = m) :
    handleClick cs false rect cx cy cast cur =
      ⟨none, some none, (resetModelColor cs.store cs.meshes cs.ctr).1, cs.store,
        (resetModelColor cs.store cs.meshes cs.ctr).2, none⟩ := by
  unfold handleClick
  rw [hm]
  dsimp only
  rw [if_neg Bool.false_ne_true]
  rcases hcase with hint | ⟨hit, hint, hclimb⟩
  · rw [hint]
  · rw [hint]
    dsimp only
    rw [hclimb]
    rw [if_pos rfl]

def c8Scene : Node := .mk 0 ([] : JStr) false none none (0, 0, 0) []

def c8CS : ClickSession := ⟨c8Scene, some 0, [], [], 0⟩

def c8Cast : ℚ × ℚ → Nat → List Nat := fun _ _ => []

def c8Rect : RectD := ⟨0, 0, 1, 1⟩

theorem c8_miss_click_clears_witness :
    handleClick c8CS false c8Rect 0 0 c8Cast none =
      ⟨none, some none, (resetModelColor c8CS.store c8CS.meshes c8CS.ctr).1, c8CS.store,
        (resetModelColor c8CS.store c8CS.meshes c8CS.ctr).2, none⟩ :=
  c8_miss_click_clears c8CS c8Rect 0 0 c8Cast none 0 rfl (Or.inl (by decide))

/-- A model whose root carries the reserved name "Scene" (the standard glTF
root) and which has no other named nodes. -/
def c9Scene : Node := .mk 0 (lit ("Scene")) false none none (0, 0, 0) []

/-- C9 counterexample: the reserved placeholder "scene" is claimed excluded,
but when NO non-reserved name exists the root-name fallback re-adds the root's
derived identity with no exclusion check - here the whole result is exactly
["scene"]. -/
theorem c9_fallback_reserved_cex :
    getTopLevelNodes (some c9Scene) = [lit ("scene")] := by
  decide

/-- C9 (amended): a failed load yields the empty list (the catch path); the
result is duplicate-free; every element is the derived PartIdentity of some
named node of the loaded asset; and every element is nonempty and distinct
from the reserved placeholders "default" and "scene" UNLESS it entered through
the root-name fallback (taken when no node contributed a usable name), which
re-adds the root's derived identity unchecked - so reserved-name exclusion
holds only up to that fallback. -/
theorem c9_part_identity_listing (loaded : Option Node) :
    (loaded = none → getTopLevelNodes loaded = []) ∧
    (getTopLevelNodes loaded).Nodup ∧
    ∀ model, loaded = some model →
      ∀ x ∈ getTopLevelNodes loaded,
        (∃ n ∈ preorder model, n.name ≠ ([] : JStr) ∧ x = cleanTopLevel n.name) ∧
        ((x ≠ ([] : JStr) ∧ x ≠ lit ("default") ∧ x ≠ lit ("scene")) ∨
          x = cleanTopLevel model.name) :=
  getTop_content loaded

/-- C10: for every screen coordinate, viewport rect and raycast oracle,
`getIntersects` on a session whose `scene.mesh` is null returns no hit (and in
particular never consults the raycaster), so picks issued before a load
completes or after disposal are safe no-hits. -/
theorem c10_pick_without_model (cx cy : ℚ) (rect : RectD) (cast : ℚ × ℚ → Nat → List Nat) :
    getIntersects cx cy rect none cast = none := by
  unfold getIntersects
  by_cases h : rect.width = 0 ∨ rect.height = 0
  · rw [if_pos h]
  · rw [if_neg h]

end ThreeSetup
